import Mathlib

/-!
# Verification of the `wlvyr-common` asynchronous command queue

Shallow embedding, in Lean 4, of the core of the `wlvyr-common` repository:

* `QueueCommand` (src/unnamed/part_002, `queue-command.js`): the one-shot
  completion signal (`onComplete` / `completed`) and the multicast status
  notification (`onStatusUpdate`),
* `UserCommand` (src/unnamed/part_004, `user-command.js`): the one-shot
  execution signal (`onExecute` / `executed`),
* `QueueStatus`, `QueueInfo`, `AttempNoRetryCondition`, `RetryPolicyEvaluator`
  (src/src/async),
* `QueueConsumer` (src/src/async/queue-consumer.js): the cooperative dispatch
  loop, modelled as a small-step system over an explicit consumer state with
  a microtask-style event set (pending `then`-continuations, a woken-loop
  marker, the single-slot resume resolver),
* `CommandSyncOrchestrator` (src/src/sync/command-sync-orchestrator.js) and
  `ItemConsolidator` (src/src/common/iobject-consolidator.js).

JavaScript `Promise` one-shot signals are modelled by their four observable
fields (`resolve`/`promise` present or absent, `completed`/`executed`,
stored `result`), and promise resolution is modelled by the value delivered
to already-attached continuations.  `async` orchestrator methods are
modelled running to completion, with the one deferred continuation that
matters (`#removeQueueCommandAsync`'s post-`await` tail during
consolidation) sequenced exactly where the JavaScript microtask queue runs
it.  The consumer's executor is modelled by explicit `execSignal` /
`deliver` actions: each dispatch installs exactly one `then`-continuation
and each continuation is delivered exactly once, which is the spec's
"work executor signals completion exactly once per dispatch" regime.
-/

namespace Wlvyr

/-- `QueueStatus` enum from `queue-status.js`: `Initial`, `Processing`, `Complete`. -/
inductive QueueStatus where
  | Initial
  | Processing
  | Complete
deriving DecidableEq, Repr

/-- `QueueInfo` from `queue-info.js`: attempt counter and status.
(`dateCreated` is a wall-clock timestamp irrelevant to every claim and
is omitted; `priority` is commented out in the source.) -/
structure QueueInfo where
  attemptNo : Nat
  status : QueueStatus
deriving DecidableEq, Repr

/-- `new QueueInfo()`: `attemptNo = 0`, `status = Initial`. -/
def QueueInfo.init : QueueInfo := { attemptNo := 0, status := .Initial }

/-- The observable state of the `_onComplete` record of a `QueueCommand`
(`queue-command.js`): whether `resolve` and `promise` are set, the
`completed` flag and the stored `result`. -/
structure OnComplete where
  hasResolve : Bool
  hasPromise : Bool
  completed : Bool
  result : Option Bool
deriving DecidableEq, Repr

/-- Initial `_onComplete` record built by the `QueueCommand` constructor. -/
def OnComplete.init : OnComplete :=
  { hasResolve := false, hasPromise := false, completed := false, result := none }

/-- What a call to `onComplete()` (resp. `onExecute()`) hands back to the
caller: an already-resolved future carrying a value, or the outstanding
pending future. -/
inductive FutureView where
  | resolved (r : Option Bool)
  | pending
deriving DecidableEq, Repr

/-- `QueueCommand.onComplete()`:
if `completed`, return `Promise.resolve(result)`;
otherwise create the promise/resolver pair if absent and return the
pending promise. -/
def OnComplete.onCompleteOp (o : OnComplete) : OnComplete × FutureView :=
  if o.completed then
    (o, .resolved o.result)
  else if o.hasPromise then
    (o, .pending)
  else
    ({ o with hasPromise := true, hasResolve := true }, .pending)

/-- `QueueCommand.completed(success)`:
if a resolver is outstanding, resolve the pending promise with `success`
(the delivered value is the second component), record
`completed := true`, `result := success`, and clear the resolver and the
promise.  If no resolver is outstanding the call does nothing at all. -/
def OnComplete.completedOp (success : Bool) (o : OnComplete) : OnComplete × Option Bool :=
  if o.hasResolve then
    ({ hasResolve := false, hasPromise := false, completed := true, result := some success },
      some success)
  else
    (o, none)

/-- The observable state of the `_onExecute` record of a `UserCommand`
(`user-command.js`); structurally identical to `_onComplete` but kept
separate because it embeds a different source object. -/
structure OnExecute where
  hasResolve : Bool
  hasPromise : Bool
  executed : Bool
  result : Option Bool
deriving DecidableEq, Repr

/-- Initial `_onExecute` record built by the `UserCommand` constructor. -/
def OnExecute.init : OnExecute :=
  { hasResolve := false, hasPromise := false, executed := false, result := none }

/-- `UserCommand.onExecute()`: mirror of `QueueCommand.onComplete()`. -/
def OnExecute.onExecuteOp (o : OnExecute) : OnExecute × FutureView :=
  if o.executed then
    (o, .resolved o.result)
  else if o.hasPromise then
    (o, .pending)
  else
    ({ o with hasPromise := true, hasResolve := true }, .pending)

/-- `UserCommand.executed(success)`: mirror of `QueueCommand.completed`. -/
def OnExecute.executedOp (success : Bool) (o : OnExecute) : OnExecute × Option Bool :=
  if o.hasResolve then
    ({ hasResolve := false, hasPromise := false, executed := true, result := some success },
      some success)
  else
    (o, none)

/-- `UserCommandMeta` from `user-command-meta.js`: resource id, optional
context id, uuid, timestamp, `isPatch` and `isSensitiveData` flags.
The timestamp and `isSensitiveData` play no role in any claim. -/
structure UserCommandMeta where
  resourceId : String
  contextId : Option String
  uuid : String
  isPatch : Bool
deriving DecidableEq, Repr

/-- `UserCommandMeta.ReferenceId` getter:
`(contextId ?? '') + (resourceId ?? '') + uuid`. -/
def UserCommandMeta.ReferenceId (m : UserCommandMeta) : String :=
  m.contextId.getD "" ++ m.resourceId ++ m.uuid

/-- `UserCommand` from `user-command.js`: a command type tag, a payload
object (modelled as an association list of fields), metadata, and the
one-shot `_onExecute` execution signal. -/
structure UserCommand where
  ctype : String
  payload : List (String × Nat)
  meta : UserCommandMeta
  onExec : OnExecute
deriving DecidableEq, Repr

/-- `QueueCommand` from `queue-command.js`: the wrapped `UserCommand`, its
`QueueInfo`, and the `_onComplete` completion signal.  The constructor
throws on an absent `userCommand`; the model only ever builds commands
from a present one.  The status-listener set is abstracted: an
`onStatusUpdate(st)` multicast is recorded as a `notify` event in the
consumer's log (one event = all currently registered listeners invoked
synchronously with `st`). -/
structure QueueCommand where
  command : UserCommand
  queueInfo : QueueInfo
  onCompl : OnComplete
deriving DecidableEq, Repr

/-- `new QueueCommand(userCommand)`: fresh `QueueInfo` and `_onComplete`. -/
def QueueCommand.mkNew (u : UserCommand) : QueueCommand :=
  { command := u, queueInfo := QueueInfo.init, onCompl := OnComplete.init }

/-- `AttempNoRetryCondition` from `retry-condition.js` (src/unnamed/part_002),
as a retry predicate: `shouldRetry(command, info) = info.attemptNo < retryCount`. -/
def AttempNoRetryCondition (retryCount : Nat) : UserCommand → QueueInfo → Bool :=
  fun _ info => info.attemptNo < retryCount

/-- `RetryPolicyEvaluator` from `retry-policy-evaluator.js`: a list of
retry conditions. -/
structure RetryPolicyEvaluator where
  conditions : List (UserCommand → QueueInfo → Bool)

/-- `RetryPolicyEvaluator.shouldRetry`: true iff `some` condition holds. -/
def RetryPolicyEvaluator.shouldRetry (e : RetryPolicyEvaluator)
    (command : UserCommand) (info : QueueInfo) : Bool :=
  e.conditions.any (fun cond => cond command info)

/-- The constructor arguments of `QueueConsumer` that never change:
the gating conditions (each a predicate over the queue-state record,
whose only field is `processCount`) and the optional retry policy
evaluator.  `consumeFunc` itself is the external executor; its effects
enter the model through `Act.execSignal` / `Act.deliver`. -/
structure ConsumerConfig where
  consumeConditions : List (Int → Bool)
  retryPolicyEvaluator : Option RetryPolicyEvaluator

/-- Events recorded by the consumer model, in execution order:
`setStatus id old new` — a write `queueCommand.queueInfo.status = new`;
`notify id st` — an `onStatusUpdate(st)` multicast to the listeners;
`dequeueAttempt found waitCond` — the loop ran `#dequeue` (`found` is the
dequeued command, `waitCond` is `#shouldConsumerWait` evaluated at that
instant); `complFire id r` — the command's completion future resolved
with `r`. -/
inductive Ev where
  | setStatus (id : Nat) (old new : QueueStatus)
  | notify (id : Nat) (st : QueueStatus)
  | dequeueAttempt (found : Option Nat) (waitCond : Bool)
  | complFire (id : Nat) (r : Bool)
deriving DecidableEq, Repr

/-- The mutable state of a `QueueConsumer` plus the scheduling context the
JavaScript runtime keeps for it:

* `cmds` — every `QueueCommand` object the consumer has been given, keyed
  by object identity (a `Nat`); the heap of live command objects;
* `queue` — the pending `Set`, in insertion order;
* `processCount` — the queue-state record;
* `isRunning`, `slot` (`resumeResolver !== undefined`);
* `woken` — loop continuations scheduled by firing the resolver and not
  yet run (a `start()` after `stop()` while a loop is parked launches a
  second loop, so this can exceed one over a run's history);
* `orphans` — parked loops whose resolver slot was overwritten by a later
  loop registering; they can never be woken again;
* `pend` — the `userCommand.onExecute().then(...)` continuations installed
  by `#processCommand`: `(id, none)` waits on an unresolved promise,
  `(id, some r)` is scheduled to run with value `r`;
* `log` — the event trace. -/
structure CState where
  cmds : List (Nat × QueueCommand)
  queue : List Nat
  processCount : Int
  isRunning : Bool
  slot : Bool
  woken : Nat
  orphans : Nat
  pend : List (Nat × Option Bool)
  log : List Ev
deriving DecidableEq, Repr

/-- A freshly constructed `QueueConsumer`. -/
def CState.init : CState :=
  { cmds := [], queue := [], processCount := 0, isRunning := false,
    slot := false, woken := 0, orphans := 0, pend := [], log := [] }

/-- Object-identity lookup in the command heap. -/
def lookupCmd (id : Nat) (l : List (Nat × QueueCommand)) : Option QueueCommand :=
  (l.find? (fun p => p.1 == id)).map (·.2)

/-- In-place mutation of one command object. -/
def updateCmd (id : Nat) (f : QueueCommand → QueueCommand)
    (l : List (Nat × QueueCommand)) : List (Nat × QueueCommand) :=
  l.map (fun p => if p.1 == id then (p.1, f p.2) else p)

/-- `Set.prototype.add`: append if not already a member. -/
def setAdd (id : Nat) (q : List Nat) : List Nat :=
  if id ∈ q then q else q ++ [id]

/-- `queueCommand.queueInfo.status = st`, logging the old and new value. -/
def setStatus (id : Nat) (st : QueueStatus) (s : CState) : CState :=
  match lookupCmd id s.cmds with
  | none => s
  | some qc =>
    { s with
      cmds := updateCmd id
        (fun q => { q with queueInfo := { q.queueInfo with status := st } }) s.cmds,
      log := s.log ++ [.setStatus id qc.queueInfo.status st] }

/-- `queueCommand.onStatusUpdate(st)`: synchronously invoke every
registered listener with `st` (recorded as one multicast event). -/
def notifyStatus (id : Nat) (st : QueueStatus) (s : CState) : CState :=
  { s with log := s.log ++ [.notify id st] }

/-- `queueCommand.completed(success)` as invoked by the consumer:
runs `OnComplete.completedOp` on the command's `_onComplete`, logging the
value delivered to the outstanding future (if any). -/
def completedFire (id : Nat) (success : Bool) (s : CState) : CState :=
  match lookupCmd id s.cmds with
  | none => s
  | some qc =>
    let r := qc.onCompl.completedOp success
    let s := { s with cmds := updateCmd id (fun q => { q with onCompl := r.1 }) s.cmds }
    match r.2 with
    | some v => { s with log := s.log ++ [.complFire id v] }
    | none => s

/-- `#resumeOnConditionsSatisfied`: fire the single-slot resolver iff
running, the pending set is non-empty, a resolver is registered, and every
gating condition holds on the current queue state.  Firing schedules the
parked loop's continuation and clears the slot. -/
def resumeCheck (cfg : ConsumerConfig) (s : CState) : CState :=
  if s.isRunning && !s.queue.isEmpty && s.slot &&
      cfg.consumeConditions.all (fun c => c s.processCount) then
    { s with slot := false, woken := s.woken + 1 }
  else s

/-- `#shouldConsumerWait`: the pending set is empty or some gating
condition fails. -/
def shouldConsumerWait (cfg : ConsumerConfig) (s : CState) : Bool :=
  s.queue.isEmpty || cfg.consumeConditions.any (fun c => !(c s.processCount))

/-- `#processCommand(queueCommand)`: install the
`userCommand.onExecute().then(...)` continuation (already scheduled with
the stored result when the execution signal has resolved before), set the
status to `Processing`, notify the status listeners, increment
`processCount`, and invoke `consumeFunc` (the executor; its effects enter
via later actions). -/
def processCommand (id : Nat) (s : CState) : CState :=
  match lookupCmd id s.cmds with
  | none => s
  | some qc =>
    let r := qc.command.onExec.onExecuteOp
    let entry : Option Bool :=
      match r.2 with
      | .resolved v => some (v.getD false)
      | .pending => none
    let s := { s with
      cmds := updateCmd id
        (fun q => { q with command := { q.command with onExec := r.1 } }) s.cmds,
      pend := s.pend ++ [(id, entry)] }
    let s := setStatus id .Processing s
    let s := notifyStatus id .Processing s
    { s with processCount := s.processCount + 1 }

/-- `#dequeue` followed by `#processCommand`: remove the head of the
pending set (or `undefined` when empty, in which case `#processCommand`
throws on its first property access and mutates nothing) and process it.
The event records `#shouldConsumerWait` evaluated at this instant. -/
def dispatchHead (cfg : ConsumerConfig) (s : CState) : CState :=
  let w := shouldConsumerWait cfg s
  match s.queue with
  | [] => { s with log := s.log ++ [.dequeueAttempt none w] }
  | id :: rest =>
    let s := { s with queue := rest, log := s.log ++ [.dequeueAttempt (some id) w] }
    processCommand id s

/-- The `while (this.isRunning)` body of `#consume`, iterated from the top
of an iteration: exit when not running; park (register the resolver slot,
orphaning any previous registrant) when `#shouldConsumerWait`; otherwise
dequeue-and-process and loop.  Each non-parking iteration consumes one
queue element, so `queue.length + 1` fuel always reaches a park or exit. -/
def runLoop (cfg : ConsumerConfig) : Nat → CState → CState
  | 0, s => s
  | fuel + 1, s =>
    if !s.isRunning then s
    else if shouldConsumerWait cfg s then
      { s with orphans := s.orphans + (if s.slot then 1 else 0), slot := true }
    else
      runLoop cfg fuel (dispatchHead cfg s)

/-- `QueueConsumer.enqueue(queueCommand)` on an already-constructed
command object: add to the pending set and re-check the wake condition.
(The `command`/`queueInfo` undefined guards always pass: every modelled
command carries both.) -/
def enqueueC (cfg : ConsumerConfig) (id : Nat) (s : CState) : CState :=
  resumeCheck cfg { s with queue := setAdd id s.queue }

/-- `#handleRetry(queueCommand)`: increment `attemptNo`, consult the
evaluator (`?? false`); on retry set status back to `Initial` and
re-enqueue (which itself re-checks the wake condition, followed by the
handler's own explicit re-check) — note: no status notification; on
denial set status `Complete`, notify, and resolve the completion future
with `false`.  `processCount` is decremented last, after the re-checks. -/
def handleRetry (cfg : ConsumerConfig) (id : Nat) (s : CState) : CState :=
  match lookupCmd id s.cmds with
  | none => s
  | some qc =>
    let info := { qc.queueInfo with attemptNo := qc.queueInfo.attemptNo + 1 }
    let s := { s with
      cmds := updateCmd id (fun q => { q with queueInfo := info }) s.cmds }
    let shouldRetry :=
      match cfg.retryPolicyEvaluator with
      | some e => e.shouldRetry qc.command info
      | none => false
    let s :=
      if shouldRetry then
        resumeCheck cfg (enqueueC cfg id (setStatus id .Initial s))
      else
        completedFire id false (notifyStatus id .Complete (setStatus id .Complete s))
    { s with processCount := s.processCount - 1 }

/-- `completedCommandExecution(queueCommand, success)`: on success mark
`Complete` (without notifying the status listeners), resolve the
completion future with `true`, and decrement `processCount`; on failure
delegate to `#handleRetry`.  Always re-check the wake condition
afterwards. -/
def completedCommandExecution (cfg : ConsumerConfig) (id : Nat) (success : Bool)
    (s : CState) : CState :=
  let s :=
    if success then
      let s := setStatus id .Complete s
      let s := completedFire id true s
      { s with processCount := s.processCount - 1 }
    else
      handleRetry cfg id s
  resumeCheck cfg s

/-- `QueueConsumer.start()`: remember whether a loop was already running,
set `isRunning`, re-check the wake condition, and if no loop was running
launch a fresh `#consume` loop, which runs synchronously until it parks
or exits. -/
def startC (cfg : ConsumerConfig) (s : CState) : CState :=
  let wasRunning := s.isRunning
  let s := resumeCheck cfg { s with isRunning := true }
  if wasRunning then s else runLoop cfg (s.queue.length + 1) s

/-- `QueueConsumer.stop()`: clear `isRunning`; nothing else. -/
def stopC (s : CState) : CState :=
  { s with isRunning := false }

/-- `QueueConsumer.remove(queueCommand)`: delete from the pending set. -/
def removeC (id : Nat) (s : CState) : CState :=
  { s with queue := s.queue.erase id }

/-- The executor resolving the user command's execution signal:
`userCommand.executed(v)`.  If a resolver is outstanding the promise
resolves with `v` and every `then`-continuation attached to it (the
`(id, none)` entries) becomes scheduled with `v`; otherwise the call is a
no-op. -/
def execSignal (id : Nat) (v : Bool) (s : CState) : CState :=
  match lookupCmd id s.cmds with
  | none => s
  | some qc =>
    let r := qc.command.onExec.executedOp v
    let s := { s with
      cmds := updateCmd id
        (fun q => { q with command := { q.command with onExec := r.1 } }) s.cmds }
    match r.2 with
    | some d =>
      { s with pend := s.pend.map (fun p => if p.1 == id && p.2 == none then (p.1, some d) else p) }
    | none => s

/-- The microtask queue running one scheduled `then`-continuation for
command `id`: it calls `completedCommandExecution(queueCommand, success || false)`. -/
def deliver (cfg : ConsumerConfig) (id : Nat) (s : CState) : CState :=
  match s.pend.find? (fun p => p.1 == id && p.2.isSome) with
  | some (_, some r) =>
    completedCommandExecution cfg id r
      { s with pend := s.pend.eraseP (fun p => p.1 == id && p.2.isSome) }
  | _ => s

/-- The microtask queue running a parked loop's continuation after its
wait promise resolved: the `await` returns in the middle of the iteration,
so the loop dequeues and processes immediately — without re-evaluating
`#shouldConsumerWait` — and only then re-enters the `while` from the top. -/
def loopResume (cfg : ConsumerConfig) (s : CState) : CState :=
  if s.woken = 0 then s
  else
    let s := { s with woken := s.woken - 1 }
    let s := dispatchHead cfg s
    runLoop cfg (s.queue.length + 1) s

/-- Caller-side admission of a fresh command:
`new QueueCommand(userCommand)` (fresh identity) followed by
`consumer.enqueue(queueCommand)`.  This is the only way new command
objects enter the consumer (the orchestrator constructs every
`QueueCommand` it enqueues), so re-admission of an existing object
happens only through `#handleRetry`. -/
def enqueueNewC (cfg : ConsumerConfig) (id : Nat) (u : UserCommand) (s : CState) : CState :=
  if (lookupCmd id s.cmds).isSome then s
  else enqueueC cfg id { s with cmds := s.cmds ++ [(id, QueueCommand.mkNew u)] }

/-- A caller invoking `queueCommand.onComplete()` (subscribing to the
completion future, creating the promise/resolver pair when absent). -/
def subscribeComplete (id : Nat) (s : CState) : CState :=
  match lookupCmd id s.cmds with
  | none => s
  | some qc =>
    { s with cmds := updateCmd id (fun q => { q with onCompl := qc.onCompl.onCompleteOp.1 }) s.cmds }

/-- One atomic step of the consumer system: an API call running to the
end of its synchronous code, or the microtask queue running one scheduled
continuation.  `execSignal`/`deliver` encode the executor contract of
spec §6: each dispatch installs exactly one completion continuation and
each scheduled continuation is delivered exactly once. -/
inductive Act where
  | start
  | stop
  | enqueueNew (id : Nat) (u : UserCommand)
  | subscribeComplete (id : Nat)
  | remove (id : Nat)
  | condsChanged
  | execSignal (id : Nat) (v : Bool)
  | deliver (id : Nat)
  | loopResume

/-- Interpret one action. -/
def applyAct (cfg : ConsumerConfig) : Act → CState → CState
  | .start, s => startC cfg s
  | .stop, s => stopC s
  | .enqueueNew id u, s => enqueueNewC cfg id u s
  | .subscribeComplete id, s => subscribeComplete id s
  | .remove id, s => removeC id s
  | .condsChanged, s => resumeCheck cfg s
  | .execSignal id v, s => execSignal id v s
  | .deliver id, s => deliver cfg id s
  | .loopResume, s => loopResume cfg s

/-- Run an action sequence from a freshly constructed consumer. -/
def runActs (cfg : ConsumerConfig) (acts : List Act) : CState :=
  acts.foldl (fun s a => applyAct cfg a s) CState.init

/-- Status of a command object in a consumer state. -/
def statusOf (s : CState) (id : Nat) : Option QueueStatus :=
  (lookupCmd id s.cmds).map (·.queueInfo.status)

/-- The number of commands owned by the consumer currently in
`Processing` status. -/
def countProcessing (s : CState) : Nat :=
  (s.cmds.filter (fun p => p.2.queueInfo.status == QueueStatus.Processing)).length

/-- The status edges the spec allows:
`Initial→Processing`, `Processing→Complete`, `Processing→Initial`. -/
def allowedEdge : QueueStatus → QueueStatus → Bool
  | .Initial, .Processing => true
  | .Processing, .Complete => true
  | .Processing, .Initial => true
  | _, _ => false

/-- Every status write in the trace is an allowed edge. -/
def edgesOk (l : List Ev) : Bool :=
  l.all (fun e =>
    match e with
    | .setStatus _ o n => allowedEdge o n
    | _ => true)

/-- Claim C2's reading of the trace: every status write is immediately
followed by an `onStatusUpdate` multicast carrying the new status. -/
def statusChangesNotified : List Ev → Bool
  | [] => true
  | .setStatus id _ st :: rest =>
    (match rest with
     | .notify id' st' :: _ => id' == id && st' == st
     | _ => false) && statusChangesNotified rest
  | _ :: rest => statusChangesNotified rest

/-- Claim C7's reading of the trace: the loop never runs `#dequeue` at an
instant where `#shouldConsumerWait` holds (pending set empty or a gating
predicate false). -/
def dequeuesChecked (l : List Ev) : Bool :=
  l.all (fun e =>
    match e with
    | .dequeueAttempt _ w => !w
    | _ => true)

/-- A plain (non-patch) user command used by the concrete consumer
scenarios. -/
def uPlain : UserCommand :=
  { ctype := "t", payload := [],
    meta := { resourceId := "r", contextId := none, uuid := "u0", isPatch := false },
    onExec := OnExecute.init }

/-- Consumer configuration with no gating conditions and no retry
evaluator. -/
def cfgPlain : ConsumerConfig :=
  { consumeConditions := [], retryPolicyEvaluator := none }

/-- Scenario 2 configuration: retry policy holding only the
attempt-count condition with `maxRetries = 2`. -/
def cfgRetry2 : ConsumerConfig :=
  { consumeConditions := [], retryPolicyEvaluator := some ⟨[AttempNoRetryCondition 2]⟩ }

/-- Scenario 2 action sequence: admit one command, subscribe to its
completion, start the consumer, and let the executor signal failure;
each failed delivery is followed by the re-dispatch of the retried
command.  (The second dispatch's completion continuation is scheduled
immediately with the stored first-attempt result, so no second
`execSignal` is needed — nor would one have any effect.) -/
def actsRetry2 : List Act :=
  [.enqueueNew 1 uPlain, .subscribeComplete 1, .start,
   .execSignal 1 false, .deliver 1, .loopResume, .deliver 1]

/-- Success scenario used against claim C2: one command, no gating, the
executor signals success. -/
def actsSuccess : List Act :=
  [.enqueueNew 1 uPlain, .start, .execSignal 1 true, .deliver 1]

/-- Configuration with a single gating predicate `processCount < 1`. -/
def cfgGate1 : ConsumerConfig :=
  { consumeConditions := [fun pc => pc < 1], retryPolicyEvaluator := none }

/-- The missed-re-check trace: `start()` with an empty queue parks the
loop; `stop()`; two commands are admitted (no wake: not running);
`start()` fires the parked resolver — the gate holds at that instant —
and, because the loop flag was off, also launches a second loop, which
synchronously dispatches command 1 and raises `processCount` to 1; when
the first loop's continuation then runs, it dequeues and dispatches
command 2 without re-checking, although the gate `processCount < 1` is
now false. -/
def actsDoubleLoop : List Act :=
  [.start, .stop, .enqueueNew 1 uPlain, .enqueueNew 2 uPlain, .start, .loopResume]

/-- The consumer-state invariant maintained by every action (the
executor regime of spec §6 — one completion continuation installed per
dispatch, each delivered exactly once — is built into `Act`):

* command identities, pending-set entries and installed continuations
  are duplicate-free;
* every pending-set member is a known command in `Initial` status;
* every installed continuation belongs to a known command in
  `Processing` status;
* `processCount` equals the number of owned commands in `Processing`
  status;
* every status write ever logged is an allowed edge. -/
structure Inv (s : CState) : Prop where
  nodupCmds : (s.cmds.map Prod.fst).Nodup
  nodupQueue : s.queue.Nodup
  nodupPend : (s.pend.map Prod.fst).Nodup
  queueInit : ∀ id ∈ s.queue,
    ∃ qc, lookupCmd id s.cmds = some qc ∧ qc.queueInfo.status = .Initial
  pendProc : ∀ id ∈ s.pend.map Prod.fst,
    ∃ qc, lookupCmd id s.cmds = some qc ∧ qc.queueInfo.status = .Processing
  countEq : s.processCount = (countProcessing s : Int)
  edges : edgesOk s.log = true

/-- Once `Complete`, a command's status never changes again. -/
def CompleteStable (s s' : CState) : Prop :=
  ∀ id, statusOf s id = some .Complete → statusOf s' id = some .Complete

/-!
## The `CommandSyncOrchestrator` (src/src/sync/command-sync-orchestrator.js)

`async` methods are modelled running to completion.  The one place where
a suspended continuation is observable — `#removeQueueCommandAsync` of
the consolidated-away command, whose post-`await` deletions run from the
microtask queue after `#buildConsolidatedCommand` has already registered
the replacement in the patch index and `handleCommandAsync` has issued
its save — is sequenced exactly where the JavaScript microtask queue
runs it (after the save call, before the tracked-set add and enqueue).
Persistence is a key-value map; stored values are the structured-clone
snapshot of the queue command's data fields (functions and promises do
not survive serialization). -/

/-- Snapshot persisted by `saveAsync(key, queueCommand)`: the wrapped
command's data and the queue info at save time. -/
structure StoredRec where
  command : UserCommand
  queueInfo : QueueInfo
deriving DecidableEq, Repr

/-- The key-prefix test of `loadByKeyPrefixAsync` (character-wise
string-prefix comparison). -/
def strKeyPre (pre s : String) : Bool :=
  s.toList.take pre.toList.length == pre.toList

/-- JavaScript `Map.prototype.set`: replace in place or append. -/
def mapSet {α : Type} (k : String) (v : α) : List (String × α) → List (String × α)
  | [] => [(k, v)]
  | p :: rest => if p.1 == k then (k, v) :: rest else p :: mapSet k v rest

/-- JavaScript `Map.prototype.delete` / key-value `remove(key)`. -/
def mapDel {α : Type} (k : String) (l : List (String × α)) : List (String × α) :=
  l.filter (fun p => p.1 != k)

/-- `CommandSyncOrchestrator` state: the owned `QueueConsumer`, the
tracked set (`queueCommands`), the patch index (`patchQueueCommands`),
the persistence collaborator's contents, the initialization flag
(`initialized` in the source), whether a consolidation collaborator is
configured, the set of commands whose `onComplete().then(cleanup)`
subscription was attached by `handleCommandAsync`, and a fresh-identity
counter for `new QueueCommand(...)`. -/
structure OrchState where
  cs : CState
  tracked : List Nat
  patchIdx : List (String × Nat)
  storage : List (String × StoredRec)
  isInit : Bool
  orchId : String
  hasConsolidator : Bool
  subscribed : List Nat
  nextId : Nat
deriving DecidableEq, Repr

/-- The uninitialized-use error thrown by `#ensureInitialized`. -/
def uninitMsg : String := "Initialized. Call initialize() first."

/-- `#getKey(queueCommand)`: `` `${this.id}-${...meta.ReferenceId}` ``. -/
def getKey (orchId : String) (qc : QueueCommand) : String :=
  orchId ++ "-" ++ qc.command.meta.ReferenceId

/-- `ItemConsolidator.consolidate(object1, object2)`:
`{ ...object1, ...object2 }` — `object1`'s fields in order, each
overridden by `object2` on a key conflict, followed by `object2`'s new
fields. -/
def consolidate (object1 object2 : List (String × Nat)) : List (String × Nat) :=
  (object1.map (fun p =>
    match object2.find? (fun q => q.1 == p.1) with
    | some q => (p.1, q.2)
    | none => p))
  ++ object2.filter (fun q => (object1.find? (fun p => p.1 == q.1)).isNone)

/-- `#removeQueueCommandAsync(queueCommand)` run to completion: remove
the persisted record, drop the command from the tracked set and the
patch index (keyed by its `resourceId`), and remove it from the
consumer's pending set. -/
def removeQueueCommand (id : Nat) (st : OrchState) : OrchState :=
  match lookupCmd id st.cs.cmds with
  | none => st
  | some qc =>
    { st with
      storage := mapDel (getKey st.orchId qc) st.storage,
      tracked := st.tracked.erase id,
      patchIdx := mapDel qc.command.meta.resourceId st.patchIdx,
      cs := removeC id st.cs }

/-- The deferred tail of `#removeQueueCommandAsync` during consolidation:
everything after its `await` (the storage delete was already issued). -/
def removeQueueCommandTail (id : Nat) (st : OrchState) : OrchState :=
  match lookupCmd id st.cs.cmds with
  | none => st
  | some qc =>
    { st with
      tracked := st.tracked.erase id,
      patchIdx := mapDel qc.command.meta.resourceId st.patchIdx,
      cs := removeC id st.cs }

/-- `#buildConsolidatedCommand(userCommand)`: look the `resourceId` up in
the patch index; when an existing queue command is found that is still
`Initial` and a consolidation collaborator is configured, merge the
incoming payload with the existing pending payload
(`consolidate(userCommand.payload, existingQueueCommand.command.payload)`),
issue the existing record's storage delete (the first, synchronously
issued effect of `#removeQueueCommandAsync`; the rest of the removal is
deferred to the microtask queue) and build the new queue command around
`{ ...userCommand, payload: newPayload }`; otherwise fall back to
wrapping the incoming command as-is. -/
def buildConsolidated (u : UserCommand) (st : OrchState) :
    OrchState × QueueCommand × Option Nat :=
  let existing :=
    (st.patchIdx.find? (fun p => p.1 == u.meta.resourceId)).bind
      (fun p => (lookupCmd p.2 st.cs.cmds).map (fun qc => (p.2, qc)))
  match existing with
  | some (exId, exQc) =>
    if exQc.queueInfo.status == .Initial && st.hasConsolidator then
      let newPayload := consolidate u.payload exQc.command.payload
      let st := { st with storage := mapDel (getKey st.orchId exQc) st.storage }
      (st, QueueCommand.mkNew { u with payload := newPayload }, some exId)
    else (st, QueueCommand.mkNew u, none)
  | none => (st, QueueCommand.mkNew u, none)

/-- The tail of `handleCommandAsync` shared by both branches: allocate
the new queue command object, attach the
`onComplete().then(#removeQueueCommandAsync)` cleanup subscription,
persist the snapshot under `{id}-{ReferenceId}`, let the microtask queue
run the deferred removal tail of a consolidated-away command, add to the
tracked set, and enqueue. -/
def finishHandle (cfg : ConsumerConfig) (newId : Nat) (qc : QueueCommand)
    (deferred : Option Nat) (st : OrchState) : Except String OrchState :=
  let st := { st with
    nextId := newId + 1,
    cs := { st.cs with cmds := st.cs.cmds ++ [(newId, qc)] } }
  let st := { st with
    cs := subscribeComplete newId st.cs,
    subscribed := st.subscribed ++ [newId] }
  let st := { st with
    storage := mapSet (getKey st.orchId qc) ⟨qc.command, qc.queueInfo⟩ st.storage }
  let st :=
    match deferred with
    | some exId => removeQueueCommandTail exId st
    | none => st
  let st := { st with
    tracked := st.tracked ++ [newId],
    cs := enqueueC cfg newId st.cs }
  .ok st

/-- `handleCommandAsync(userCommand)` run to completion (modelling
`await hc(u1); await hc(u2)` sequencing): fail when uninitialized; wrap
non-patch / non-resource commands directly; otherwise run
`#consolidateCommand` — stop the consumer, `#buildConsolidatedCommand`,
register the result in the patch index, restart the consumer — and in
both cases run the common tail `finishHandle`. -/
def handleCommand (cfg : ConsumerConfig) (u : UserCommand) (st : OrchState) :
    Except String OrchState :=
  if !st.isInit then .error uninitMsg
  else
    let newId := st.nextId
    if !u.meta.isPatch || u.meta.resourceId == "" then
      finishHandle cfg newId (QueueCommand.mkNew u) none st
    else
      let st := { st with cs := stopC st.cs }
      let b := buildConsolidated u st
      let st := { b.1 with patchIdx := mapSet u.meta.resourceId newId b.1.patchIdx }
      let st := { st with cs := startC cfg st.cs }
      finishHandle cfg newId b.2.1 b.2.2 st

/-- One iteration of the `data.forEach` in `#loadCommandsAsync`:
reconstruct a `QueueCommand`-shaped object from the stored record
(functions and promises did not survive serialization, so the completion
signal comes back in its initial state), track it, enqueue it, and — when
its metadata marks a patch — register it in the patch index. -/
def loadOne (cfg : ConsumerConfig) (st : OrchState) (r : StoredRec) : OrchState :=
  let id := st.nextId
  let qc : QueueCommand :=
    { command := r.command, queueInfo := r.queueInfo, onCompl := OnComplete.init }
  let st := { st with
    nextId := id + 1,
    cs := { st.cs with cmds := st.cs.cmds ++ [(id, qc)] } }
  let st := { st with tracked := st.tracked ++ [id], cs := enqueueC cfg id st.cs }
  if r.command.meta.isPatch then
    { st with patchIdx := mapSet r.command.meta.resourceId id st.patchIdx }
  else st

/-- `#loadCommandsAsync(id)`: return immediately when already
initialized; otherwise re-admit every record stored under the prefix
`{id}-`.  No completion subscription is attached to recovered
commands. -/
def loadCommands (cfg : ConsumerConfig) (st : OrchState) : OrchState :=
  if st.isInit then st
  else
    let data :=
      (st.storage.filter (fun p => strKeyPre (st.orchId ++ "-") p.1)).map Prod.snd
    data.foldl (loadOne cfg) st

/-- `initializeAsync()`: load persisted commands, then set the
initialization flag. -/
def initAsync (cfg : ConsumerConfig) (st : OrchState) : OrchState :=
  let st := loadCommands cfg st
  { st with isInit := true }

/-- `CommandSyncOrchestrator.start()`: requires initialization, then
delegates to the consumer. -/
def startO (cfg : ConsumerConfig) (st : OrchState) : Except String OrchState :=
  if !st.isInit then .error uninitMsg
  else .ok { st with cs := startC cfg st.cs }

/-- `CommandSyncOrchestrator.stop()`: delegates to the consumer with no
initialization check — it never throws. -/
def stopO (st : OrchState) : Except String OrchState :=
  .ok { st with cs := stopC st.cs }

/-- A command's completion being signalled through
`completedCommandExecution`, followed by the cleanup `.then` attached by
`handleCommandAsync` — which runs only when the completion future
actually resolved and the subscription exists for this command. -/
def completeDirectO (cfg : ConsumerConfig) (id : Nat) (success : Bool)
    (st : OrchState) : OrchState :=
  let cs := completedCommandExecution cfg id success st.cs
  let fired := (cs.log.drop st.cs.log.length).any (fun e =>
    match e with
    | .complFire i _ => i == id
    | _ => false)
  let st := { st with cs := cs }
  if fired && st.subscribed.contains id then removeQueueCommand id st else st

/-- A fresh orchestrator over a fresh consumer, with the given persisted
contents. -/
def orchNew (orchId : String) (hasConsolidator : Bool)
    (storage : List (String × StoredRec)) : OrchState :=
  { cs := CState.init, tracked := [], patchIdx := [], storage := storage,
    isInit := false, orchId := orchId, hasConsolidator := hasConsolidator,
    subscribed := [], nextId := 0 }

/-- Unwrap an orchestrator step that is expected to succeed. -/
def stepOk (r : Except String OrchState) (d : OrchState) : OrchState :=
  match r with
  | .ok s => s
  | .error _ => d

/-- Consumer configuration whose single gating predicate is false
(e.g. connectivity down), keeping admitted commands undispatched. -/
def cfgOffline : ConsumerConfig :=
  { consumeConditions := [fun _ => false], retryPolicyEvaluator := none }

/-- Patch metadata for resource `r1`. -/
def metaPatch (uuid : String) : UserCommandMeta :=
  { resourceId := "r1", contextId := none, uuid := uuid, isPatch := true }

/-- First patch command for `r1`. -/
def uP1 : UserCommand :=
  { ctype := "patch", payload := [("a", 1), ("b", 2)], meta := metaPatch "u1",
    onExec := OnExecute.init }

/-- Second patch command for `r1`, submitted before the first is
dispatched. -/
def uP2 : UserCommand :=
  { ctype := "patch", payload := [("b", 9), ("c", 3)], meta := metaPatch "u2",
    onExec := OnExecute.init }

/-- Scenario 3 states: fresh orchestrator, initialized, after the first
patch, after the second (consolidating) patch. -/
def orchC4a : OrchState := initAsync cfgOffline (orchNew "o" true [])

/-- Scenario 3 state after `handleCommandAsync(uP1)`. -/
def orchC4b : OrchState := stepOk (handleCommand cfgOffline uP1 orchC4a) orchC4a

/-- Scenario 3 state after `handleCommandAsync(uP2)`. -/
def orchC4c : OrchState := stepOk (handleCommand cfgOffline uP2 orchC4b) orchC4b

/-- The record persisted before the crash in the recovery scenario. -/
def storedC10 : StoredRec :=
  { command := uP1, queueInfo := QueueInfo.init }

/-- Recovery scenario: an orchestrator whose storage holds one record
from a previous session. -/
def orchC10a : OrchState :=
  initAsync cfgOffline (orchNew "o" true [("o-r1u1", storedC10)])

/-- Recovery scenario after an external caller subscribes to the
recovered command's completion future. -/
def orchC10b : OrchState := { orchC10a with cs := subscribeComplete 0 orchC10a.cs }

/-- Recovery scenario after the recovered command's execution is
reported successful and its completion future resolves. -/
def orchC10c : OrchState := completeDirectO cfgOffline 0 true orchC10b

/-- One completion cycle on an `_onComplete` state holding an
outstanding resolver: `completed(s)` delivers `s` to the outstanding
future and stores it; every subsequent `completed` call is a no-op; every
later `onComplete()` call returns an already-resolved future carrying
`s` without changing state. -/
def CompletionOnceFrom (o : OnComplete) (s : Bool) : Prop :=
  (o.completedOp s).2 = some s ∧
  (o.completedOp s).1.completed = true ∧
  (o.completedOp s).1.result = some s ∧
  (∀ s', ((o.completedOp s).1).completedOp s' = ((o.completedOp s).1, none)) ∧
  ((o.completedOp s).1).onCompleteOp = ((o.completedOp s).1, .resolved (some s))

/-- Claim C1 read at the concrete input it fails on: `completed(true)`
called on a fresh `_onComplete` record (no `onComplete()` call yet); the
claim says a first `onComplete()` made afterwards returns an
already-resolved future carrying `true`. -/
def C1ClaimAtFreshRecord : Prop :=
  ((OnComplete.completedOp true OnComplete.init).1.onCompleteOp).2 = .resolved (some true)

/-- Dispatching a command whose execution signal has already resolved
installs a completion continuation that is scheduled immediately with
the stored first result. -/
def StaleExecutionAt (st : CState) (id : Nat) (qc : QueueCommand) : Prop :=
  (processCommand id st).pend = st.pend ++ [(id, some (qc.command.onExec.result.getD false))]

/-- Claim C8 read at the concrete input it fails on: `stop()` on a
fresh, never-initialized orchestrator; the claim says each mutating
operation, `stop` included, fails with the uninitialized error. -/
def C8ClaimAtStop : Prop :=
  ∃ e, stopO (orchNew "o" true []) = Except.error e

/-- The consumer state of the attempt-count retry scenario right after
the first failed delivery (command 1 retried, back in the pending set). -/
def sRetry5 : CState := runActs cfgRetry2 (actsRetry2.take 5)

/-- The retried command object in `sRetry5`. -/
def qcRetry5 : QueueCommand :=
  (lookupCmd 1 sRetry5.cmds).getD (QueueCommand.mkNew uPlain)

/-- In-place field writes on a `QueueCommand` object, named so that the
object mutations of the consumer can be stated compactly:
`queueCommand.queueInfo.status = st`. -/
def setStatusF (st : QueueStatus) : QueueCommand → QueueCommand :=
  fun q => { q with queueInfo := { q.queueInfo with status := st } }

/-- `queueCommand.queueInfo = i` (the retry handler's attempt bump). -/
def setInfoF (i : QueueInfo) : QueueCommand → QueueCommand :=
  fun q => { q with queueInfo := i }

/-- `userCommand._onExecute = e`. -/
def setExecF (e : OnExecute) : QueueCommand → QueueCommand :=
  fun q => { q with command := { q.command with onExec := e } }

/-- `queueCommand._onComplete = c`. -/
def setComplF (c : OnComplete) : QueueCommand → QueueCommand :=
  fun q => { q with onCompl := c }

/-! ## Basic facts about the operation bodies -/

theorem setStatusF_def (st : QueueStatus) :
    setStatusF st = fun q => { q with queueInfo := { q.queueInfo with status := st } } := rfl

theorem setInfoF_def (i : QueueInfo) :
    setInfoF i = fun q => { q with queueInfo := i } := rfl

theorem setExecF_def (e : OnExecute) :
    setExecF e = fun q => { q with command := { q.command with onExec := e } } := rfl

theorem setComplF_def (c : OnComplete) :
    setComplF c = fun q => { q with onCompl := c } := rfl

@[simp]
theorem setStatusF_status (st : QueueStatus) (q : QueueCommand) :
    (setStatusF st q).queueInfo.status = st := rfl

@[simp]
theorem setInfoF_info (i : QueueInfo) (q : QueueCommand) :
    (setInfoF i q).queueInfo = i := rfl

@[simp]
theorem setExecF_info (e : OnExecute) (q : QueueCommand) :
    (setExecF e q).queueInfo = q.queueInfo := rfl

@[simp]
theorem setComplF_info (c : OnComplete) (q : QueueCommand) :
    (setComplF c q).queueInfo = q.queueInfo := rfl

@[simp]
theorem resumeCheck_cmds (cfg : ConsumerConfig) (s : CState) :
    (resumeCheck cfg s).cmds = s.cmds := by
  unfold resumeCheck; split <;> rfl

@[simp]
theorem resumeCheck_queue (cfg : ConsumerConfig) (s : CState) :
    (resumeCheck cfg s).queue = s.queue := by
  unfold resumeCheck; split <;> rfl

@[simp]
theorem resumeCheck_pend (cfg : ConsumerConfig) (s : CState) :
    (resumeCheck cfg s).pend = s.pend := by
  unfold resumeCheck; split <;> rfl

@[simp]
theorem resumeCheck_processCount (cfg : ConsumerConfig) (s : CState) :
    (resumeCheck cfg s).processCount = s.processCount := by
  unfold resumeCheck; split <;> rfl

@[simp]
theorem resumeCheck_log (cfg : ConsumerConfig) (s : CState) :
    (resumeCheck cfg s).log = s.log := by
  unfold resumeCheck; split <;> rfl

@[simp]
theorem notifyStatus_cmds (id : Nat) (st : QueueStatus) (s : CState) :
    (notifyStatus id st s).cmds = s.cmds := rfl

@[simp]
theorem notifyStatus_queue (id : Nat) (st : QueueStatus) (s : CState) :
    (notifyStatus id st s).queue = s.queue := rfl

@[simp]
theorem notifyStatus_pend (id : Nat) (st : QueueStatus) (s : CState) :
    (notifyStatus id st s).pend = s.pend := rfl

@[simp]
theorem notifyStatus_processCount (id : Nat) (st : QueueStatus) (s : CState) :
    (notifyStatus id st s).processCount = s.processCount := rfl

@[simp]
theorem notifyStatus_log (id : Nat) (st : QueueStatus) (s : CState) :
    (notifyStatus id st s).log = s.log ++ [.notify id st] := rfl

@[simp]
theorem setStatus_queue (id : Nat) (st : QueueStatus) (s : CState) :
    (setStatus id st s).queue = s.queue := by
  unfold setStatus; cases lookupCmd id s.cmds <;> rfl

@[simp]
theorem setStatus_pend (id : Nat) (st : QueueStatus) (s : CState) :
    (setStatus id st s).pend = s.pend := by
  unfold setStatus; cases lookupCmd id s.cmds <;> rfl

@[simp]
theorem setStatus_processCount (id : Nat) (st : QueueStatus) (s : CState) :
    (setStatus id st s).processCount = s.processCount := by
  unfold setStatus; cases lookupCmd id s.cmds <;> rfl

@[simp]
theorem completedFire_queue (id : Nat) (v : Bool) (s : CState) :
    (completedFire id v s).queue = s.queue := by
  unfold completedFire
  cases h : lookupCmd id s.cmds
  · rfl
  · dsimp only; split <;> rfl

@[simp]
theorem completedFire_pend (id : Nat) (v : Bool) (s : CState) :
    (completedFire id v s).pend = s.pend := by
  unfold completedFire
  cases h : lookupCmd id s.cmds
  · rfl
  · dsimp only; split <;> rfl

@[simp]
theorem completedFire_processCount (id : Nat) (v : Bool) (s : CState) :
    (completedFire id v s).processCount = s.processCount := by
  unfold completedFire
  cases h : lookupCmd id s.cmds
  · rfl
  · dsimp only; split <;> rfl

@[simp]
theorem subscribeComplete_queue (id : Nat) (s : CState) :
    (subscribeComplete id s).queue = s.queue := by
  unfold subscribeComplete; cases lookupCmd id s.cmds <;> rfl

@[simp]
theorem subscribeComplete_pend (id : Nat) (s : CState) :
    (subscribeComplete id s).pend = s.pend := by
  unfold subscribeComplete; cases lookupCmd id s.cmds <;> rfl

@[simp]
theorem subscribeComplete_processCount (id : Nat) (s : CState) :
    (subscribeComplete id s).processCount = s.processCount := by
  unfold subscribeComplete; cases lookupCmd id s.cmds <;> rfl

@[simp]
theorem subscribeComplete_log (id : Nat) (s : CState) :
    (subscribeComplete id s).log = s.log := by
  unfold subscribeComplete; cases lookupCmd id s.cmds <;> rfl

theorem lookupCmd_cons (id : Nat) (p : Nat × QueueCommand) (t : List (Nat × QueueCommand)) :
    lookupCmd id (p :: t) = if p.1 = id then some p.2 else lookupCmd id t := by
  by_cases h : p.1 = id
  · rw [if_pos h]
    unfold lookupCmd
    rw [List.find?_cons_of_pos _ (by simpa using h)]
    rfl
  · rw [if_neg h]
    unfold lookupCmd
    rw [List.find?_cons_of_neg _ (by simpa using h)]

theorem updateCmd_cons (id : Nat) (f : QueueCommand → QueueCommand)
    (p : Nat × QueueCommand) (t : List (Nat × QueueCommand)) :
    updateCmd id f (p :: t) =
      (if p.1 = id then (p.1, f p.2) else p) :: updateCmd id f t := by
  unfold updateCmd
  by_cases h : p.1 = id <;> simp [h]

theorem lookupCmd_updateCmd_self (id : Nat) (f : QueueCommand → QueueCommand)
    (l : List (Nat × QueueCommand)) :
    lookupCmd id (updateCmd id f l) = (lookupCmd id l).map f := by
  induction l with
  | nil => rfl
  | cons p t ih =>
    rw [updateCmd_cons, lookupCmd_cons, lookupCmd_cons]
    by_cases h : p.1 = id
    · simp [h]
    · simp only [if_neg h]
      exact ih

theorem lookupCmd_updateCmd_of_ne (id id' : Nat) (f : QueueCommand → QueueCommand)
    (l : List (Nat × QueueCommand)) (h : id' ≠ id) :
    lookupCmd id' (updateCmd id f l) = lookupCmd id' l := by
  induction l with
  | nil => rfl
  | cons p t ih =>
    rw [updateCmd_cons, lookupCmd_cons, lookupCmd_cons]
    by_cases hp : p.1 = id
    · rw [if_pos hp]
      rw [if_neg (by simp [hp, Ne.symm h]), if_neg (by rw [hp]; exact Ne.symm h)]
      exact ih
    · rw [if_neg hp]
      by_cases hp' : p.1 = id'
      · rw [if_pos hp', if_pos hp']
      · rw [if_neg hp', if_neg hp']
        exact ih

@[simp]
theorem updateCmd_map_fst (id : Nat) (f : QueueCommand → QueueCommand)
    (l : List (Nat × QueueCommand)) :
    (updateCmd id f l).map Prod.fst = l.map Prod.fst := by
  induction l with
  | nil => rfl
  | cons p t ih =>
    by_cases h : p.1 = id <;> simp [updateCmd, h] at ih ⊢ <;> exact ih

theorem setStatus_cmds_eq (id : Nat) (st : QueueStatus) (s : CState)
    (qc : QueueCommand) (hq : lookupCmd id s.cmds = some qc) :
    (setStatus id st s).cmds =
      updateCmd id (fun q => { q with queueInfo := { q.queueInfo with status := st } }) s.cmds := by
  unfold setStatus; rw [hq]

theorem setStatus_log_eq (id : Nat) (st : QueueStatus) (s : CState)
    (qc : QueueCommand) (hq : lookupCmd id s.cmds = some qc) :
    (setStatus id st s).log = s.log ++ [.setStatus id qc.queueInfo.status st] := by
  unfold setStatus; rw [hq]

theorem lookupCmd_setStatus_self (id : Nat) (st : QueueStatus) (s : CState)
    (qc : QueueCommand) (hq : lookupCmd id s.cmds = some qc) :
    lookupCmd id (setStatus id st s).cmds =
      some { qc with queueInfo := { qc.queueInfo with status := st } } := by
  rw [setStatus_cmds_eq id st s qc hq, lookupCmd_updateCmd_self, hq]; rfl

theorem completedFire_log_eq (id : Nat) (v : Bool) (s : CState)
    (qc : QueueCommand) (hq : lookupCmd id s.cmds = some qc) :
    (completedFire id v s).log =
      s.log ++ (if qc.onCompl.hasResolve then [.complFire id v] else []) := by
  unfold completedFire
  rw [hq]
  by_cases h : qc.onCompl.hasResolve <;>
    simp [OnComplete.completedOp, h]

theorem completedFire_cmds_eq (id : Nat) (v : Bool) (s : CState)
    (qc : QueueCommand) (hq : lookupCmd id s.cmds = some qc) :
    (completedFire id v s).cmds =
      updateCmd id (fun q => { q with onCompl := (qc.onCompl.completedOp v).1 }) s.cmds := by
  unfold completedFire
  rw [hq]
  dsimp only
  split <;> rfl

theorem processCommand_log_eq (id : Nat) (s : CState) (qc : QueueCommand)
    (hq : lookupCmd id s.cmds = some qc) :
    (processCommand id s).log =
      s.log ++ [.setStatus id qc.queueInfo.status .Processing, .notify id .Processing] := by
  simp [processCommand, hq, setStatus, notifyStatus, lookupCmd_updateCmd_self]

theorem completedCommandExecution_true_log (cfg : ConsumerConfig) (id : Nat)
    (s : CState) (qc : QueueCommand) (hq : lookupCmd id s.cmds = some qc) :
    (completedCommandExecution cfg id true s).log =
      s.log ++ [.setStatus id qc.queueInfo.status .Complete] ++
        (if qc.onCompl.hasResolve then [.complFire id true] else []) := by
  by_cases h : qc.onCompl.hasResolve <;>
    simp [completedCommandExecution, setStatus, completedFire, OnComplete.completedOp,
      lookupCmd_updateCmd_self, hq, h]

theorem handleRetry_retry_log (cfg : ConsumerConfig) (id : Nat)
    (s : CState) (qc : QueueCommand) (hq : lookupCmd id s.cmds = some qc)
    (e : RetryPolicyEvaluator) (he : cfg.retryPolicyEvaluator = some e)
    (hr : e.shouldRetry qc.command
      { qc.queueInfo with attemptNo := qc.queueInfo.attemptNo + 1 } = true) :
    (handleRetry cfg id s).log =
      s.log ++ [.setStatus id qc.queueInfo.status .Initial] := by
  simp [handleRetry, hq, he, hr, setStatus, enqueueC, lookupCmd_updateCmd_self]

theorem handleRetry_deny_log (cfg : ConsumerConfig) (id : Nat)
    (s : CState) (qc : QueueCommand) (hq : lookupCmd id s.cmds = some qc)
    (hdeny : (match cfg.retryPolicyEvaluator with
      | some e => e.shouldRetry qc.command
          { qc.queueInfo with attemptNo := qc.queueInfo.attemptNo + 1 }
      | none => false) = false) :
    (handleRetry cfg id s).log =
      s.log ++ [.setStatus id qc.queueInfo.status .Complete, .notify id .Complete] ++
        (if qc.onCompl.hasResolve then [.complFire id false] else []) := by
  by_cases h : qc.onCompl.hasResolve <;>
    simp [handleRetry, hq, hdeny, setStatus, notifyStatus, completedFire,
      OnComplete.completedOp, lookupCmd_updateCmd_self, h]

/-! ## Claim C1: the completion future of a `QueueCommand` -/

/-- C1, counterexample.  The claim asserts that after `completed(s)` any
later `onComplete()` — including a first call made only after the
completion — returns an already-resolved future carrying `s`.  On the
code, `completed(s)` invoked while no resolver is outstanding is a
complete no-op: nothing is stored, and a later first `onComplete()`
returns a fresh pending future. -/
theorem C1_counterexample : ¬ C1ClaimAtFreshRecord := by
  unfold C1ClaimAtFreshRecord
  decide

/-- C1, amended: when a future is outstanding (some caller ran
`onComplete()` first), the first `completed(s)` resolves it with `s` and
stores `s`; subsequent `completed` calls are no-ops; every later
`onComplete()` returns an already-resolved future carrying `s`.  When
`completed(s)` is called with no future outstanding it is a no-op and
nothing is stored (shown here on the freshly constructed record). -/
theorem C1_completion_resolves_once (o : OnComplete) (s : Bool)
    (h : o.hasResolve = true) :
    CompletionOnceFrom o s ∧
    (∀ s', OnComplete.init.completedOp s' = (OnComplete.init, none)) := by
  constructor
  · refine ⟨?_, ?_, ?_, ?_, ?_⟩ <;>
      simp [CompletionOnceFrom, OnComplete.completedOp, OnComplete.onCompleteOp, h]
  · intro s'
    simp [OnComplete.completedOp, OnComplete.init]

/-- Witness for `C1_completion_resolves_once` at the record produced by
a first `onComplete()` call on a fresh `QueueCommand`, with `s = true`. -/
theorem C1_completion_resolves_once_witness :
    (OnComplete.init.onCompleteOp.1.hasResolve = true) ∧
    (CompletionOnceFrom OnComplete.init.onCompleteOp.1 true ∧
      (∀ s', OnComplete.init.completedOp s' = (OnComplete.init, none))) :=
  ⟨by decide, C1_completion_resolves_once OnComplete.init.onCompleteOp.1 true (by decide)⟩

/-! ## Claim C2: which status changes notify the observers -/

/-- C2, counterexample.  The claim asserts every status change the
consumer makes — including `Processing→Complete` on successful
completion — synchronously notifies the registered observers.  In the
success scenario (one command, executor signals `true`) the consumer
writes `Processing→Complete` in `completedCommandExecution` without any
`onStatusUpdate` multicast: the trace refutes the claim. -/
theorem C2_counterexample :
    statusChangesNotified (runActs cfgPlain actsSuccess).log = false ∧
    Ev.setStatus 1 .Processing .Complete ∈ (runActs cfgPlain actsSuccess).log ∧
    Ev.notify 1 .Complete ∉ (runActs cfgPlain actsSuccess).log := by
  refine ⟨by decide, by decide, by decide⟩

/-- C2, amended: of the four status transitions the consumer performs,
exactly two notify the observers.  `Initial→Processing` at dispatch and
`Processing→Complete` on retry denial invoke `onStatusUpdate`
synchronously (the multicast event immediately follows the status
write); `Processing→Complete` on successful completion and
`Processing→Initial` on retry re-admission write the status without any
notification. -/
theorem C2_notifications_on_dispatch_and_denial_only (cfg : ConsumerConfig)
    (id : Nat) (s : CState) (qc : QueueCommand)
    (hq : lookupCmd id s.cmds = some qc) :
    ((processCommand id s).log =
      s.log ++ [.setStatus id qc.queueInfo.status .Processing, .notify id .Processing]) ∧
    ((match cfg.retryPolicyEvaluator with
      | some e => e.shouldRetry qc.command
          { qc.queueInfo with attemptNo := qc.queueInfo.attemptNo + 1 }
      | none => false) = false →
      (handleRetry cfg id s).log =
        s.log ++ [.setStatus id qc.queueInfo.status .Complete, .notify id .Complete] ++
          (if qc.onCompl.hasResolve then [.complFire id false] else [])) ∧
    ((completedCommandExecution cfg id true s).log =
      s.log ++ [.setStatus id qc.queueInfo.status .Complete] ++
        (if qc.onCompl.hasResolve then [.complFire id true] else [])) ∧
    (∀ e, cfg.retryPolicyEvaluator = some e →
      e.shouldRetry qc.command
          { qc.queueInfo with attemptNo := qc.queueInfo.attemptNo + 1 } = true →
      (handleRetry cfg id s).log =
        s.log ++ [.setStatus id qc.queueInfo.status .Initial]) := by
  refine ⟨processCommand_log_eq id s qc hq, ?_, ?_, ?_⟩
  · intro hdeny
    exact handleRetry_deny_log cfg id s qc hq hdeny
  · exact completedCommandExecution_true_log cfg id s qc hq
  · intro e he hr
    exact handleRetry_retry_log cfg id s qc hq e he hr

/-- Witness for `C2_notifications_on_dispatch_and_denial_only` at the
state of the attempt-count scenario right after the first failed
delivery, for command 1. -/
theorem C2_notifications_on_dispatch_and_denial_only_witness :
    (lookupCmd 1 sRetry5.cmds = some qcRetry5) ∧
    (((processCommand 1 sRetry5).log =
      sRetry5.log ++
        [.setStatus 1 qcRetry5.queueInfo.status .Processing, .notify 1 .Processing]) ∧
    ((match cfgRetry2.retryPolicyEvaluator with
      | some e => e.shouldRetry qcRetry5.command
          { qcRetry5.queueInfo with attemptNo := qcRetry5.queueInfo.attemptNo + 1 }
      | none => false) = false →
      (handleRetry cfgRetry2 1 sRetry5).log =
        sRetry5.log ++
          [.setStatus 1 qcRetry5.queueInfo.status .Complete, .notify 1 .Complete] ++
          (if qcRetry5.onCompl.hasResolve then [.complFire 1 false] else [])) ∧
    ((completedCommandExecution cfgRetry2 1 true sRetry5).log =
      sRetry5.log ++ [.setStatus 1 qcRetry5.queueInfo.status .Complete] ++
        (if qcRetry5.onCompl.hasResolve then [.complFire 1 true] else [])) ∧
    (∀ e, cfgRetry2.retryPolicyEvaluator = some e →
      e.shouldRetry qcRetry5.command
          { qcRetry5.queueInfo with attemptNo := qcRetry5.queueInfo.attemptNo + 1 } = true →
      (handleRetry cfgRetry2 1 sRetry5).log =
        sRetry5.log ++ [.setStatus 1 qcRetry5.queueInfo.status .Initial])) :=
  ⟨by decide,
    C2_notifications_on_dispatch_and_denial_only cfgRetry2 1 sRetry5 qcRetry5 (by decide)⟩

/-! ## Claim C3: the attempt-count retry scenario -/

/-- C3: with the retry evaluator holding only the attempt-count
condition with `maxRetries = 2` and a command whose every execution
signals failure: dispatched with `attemptNo 0`; the first failure raises
it to `1` and the command is retried (`1 < 2`, so its status returns to
`Initial` and it is re-admitted to the pending set); the second failure
raises it to `2` and retry is denied (`2 < 2` is false), its status
becomes `Complete` and its completion future resolves with `false`. -/
theorem C3_attempt_count_retry_scenario :
    (AttempNoRetryCondition 2 uPlain { attemptNo := 1, status := .Processing } = true ∧
      AttempNoRetryCondition 2 uPlain { attemptNo := 2, status := .Processing } = false) ∧
    (statusOf (runActs cfgRetry2 (actsRetry2.take 3)) 1 = some .Processing ∧
      (lookupCmd 1 (runActs cfgRetry2 (actsRetry2.take 3)).cmds).map
        (fun q => q.queueInfo.attemptNo) = some 0) ∧
    (statusOf sRetry5 1 = some .Initial ∧
      (lookupCmd 1 sRetry5.cmds).map (fun q => q.queueInfo.attemptNo) = some 1 ∧
      1 ∈ sRetry5.queue) ∧
    (statusOf (runActs cfgRetry2 actsRetry2) 1 = some .Complete ∧
      (lookupCmd 1 (runActs cfgRetry2 actsRetry2).cmds).map
        (fun q => q.queueInfo.attemptNo) = some 2 ∧
      (lookupCmd 1 (runActs cfgRetry2 actsRetry2).cmds).map
        (fun q => q.onCompl.result) = some (some false) ∧
      Ev.complFire 1 false ∈ (runActs cfgRetry2 actsRetry2).log) := by
  refine ⟨⟨by decide, by decide⟩, ⟨by decide, by decide⟩,
    ⟨by decide, by decide, by decide⟩, ⟨by decide, by decide, by decide, by decide⟩⟩

/-! ## Claim C7: the wait condition is not re-checked after a wake -/

/-- C7: the claim — faithful to the spec's "on wake, re-loop (re-check,
do not assume the registering condition still holds)" — is violated by
the code: after `await #createWaitPromise(..)` returns, `#consume`
proceeds straight to `#dequeue` without re-evaluating
`#shouldConsumerWait`.  This theorem evaluates the code on the failing
trace `actsDoubleLoop` (gate `processCount < 1`): `start` on an empty
queue parks the loop; `stop`; two commands are admitted; the second
`start` fires the parked resolver (the gate holds at that instant) and
launches a second loop that dispatches command 1, raising
`processCount` to 1; the woken first loop then dequeues and dispatches
command 2 although the gate is false — the trace contains a
`dequeueAttempt` with the wait condition true, command 2 ends up
`Processing`, and the gate's cap of one in-flight command is broken. -/
theorem C7_dispatch_without_recheck_after_wake :
    dequeuesChecked (runActs cfgGate1 actsDoubleLoop).log = false ∧
    Ev.dequeueAttempt (some 2) true ∈ (runActs cfgGate1 actsDoubleLoop).log ∧
    statusOf (runActs cfgGate1 actsDoubleLoop) 2 = some .Processing ∧
    (runActs cfgGate1 actsDoubleLoop).processCount = 2 := by
  refine ⟨by decide, by decide, by decide, by decide⟩

/-! ## Claim C9: staleness of a re-dispatched command's execution signal -/

/-- C9: once `executed(s)` has resolved the execution signal while a
resolver was outstanding, the result `s` is stored and the signal is
spent: every later `executed` call is a no-op and every later
`onExecute()` returns an immediately-resolved future carrying the stored
result.  Consequently, when the consumer re-dispatches a retried command
(`#processCommand` on a command whose `userCommand` has already
executed), the freshly installed completion continuation is scheduled at
once with the first attempt's stored result — the re-executed work's own
outcome can no longer reach the queue command's completion. -/
theorem C9_stale_execution_result
    (e : OnExecute) (s : Bool) (he : e.hasResolve = true)
    (e2 : OnExecute) (h2x : e2.executed = true) (h2r : e2.hasResolve = false)
    (st : CState) (id : Nat) (qc : QueueCommand)
    (hq : lookupCmd id st.cmds = some qc)
    (hqe : qc.command.onExec.executed = true) :
    ((e.executedOp s).2 = some s ∧
      (e.executedOp s).1.executed = true ∧
      (e.executedOp s).1.result = some s) ∧
    (∀ v, e2.executedOp v = (e2, none)) ∧
    (e2.onExecuteOp = (e2, .resolved e2.result)) ∧
    StaleExecutionAt st id qc := by
  refine ⟨⟨?_, ?_, ?_⟩, ?_, ?_, ?_⟩
  · simp [OnExecute.executedOp, he]
  · simp [OnExecute.executedOp, he]
  · simp [OnExecute.executedOp, he]
  · intro v; simp [OnExecute.executedOp, h2r]
  · simp [OnExecute.onExecuteOp, h2x]
  · unfold StaleExecutionAt processCommand
    rw [hq]
    simp [OnExecute.onExecuteOp, hqe]

/-- Witness for `C9_stale_execution_result`: the spent signal obtained by
`onExecute()` then `executed(false)`, and the re-dispatch of command `1`
in the attempt-count retry scenario right after its first failed
delivery. -/
theorem C9_stale_execution_result_witness :
    (OnExecute.init.onExecuteOp.1.hasResolve = true ∧
      (OnExecute.init.onExecuteOp.1.executedOp false).1.executed = true ∧
      (OnExecute.init.onExecuteOp.1.executedOp false).1.hasResolve = false ∧
      lookupCmd 1 sRetry5.cmds = some qcRetry5 ∧
      qcRetry5.command.onExec.executed = true) ∧
    ((OnExecute.init.onExecuteOp.1.executedOp false).1.executedOp true
        = ((OnExecute.init.onExecuteOp.1.executedOp false).1, none) ∧
      StaleExecutionAt sRetry5 1 qcRetry5) := by
  refine ⟨by decide, ?_, ?_⟩
  · exact (C9_stale_execution_result OnExecute.init.onExecuteOp.1 false (by decide)
      (OnExecute.init.onExecuteOp.1.executedOp false).1 (by decide) (by decide)
      sRetry5 1 qcRetry5 (by decide) (by decide)).2.1 true
  · exact (C9_stale_execution_result OnExecute.init.onExecuteOp.1 false (by decide)
      (OnExecute.init.onExecuteOp.1.executedOp false).1 (by decide) (by decide)
      sRetry5 1 qcRetry5 (by decide) (by decide)).2.2.2

/-! ## Claim C4: consolidation of two patch commands for one resource -/

/-- C4: with a consolidation collaborator configured, a second patch
command for `r1` arriving while the first one's queue command is still
`Initial`: the merge is `consolidate(incomingPayload, existingPendingPayload)`
and with `ItemConsolidator` the second argument's fields win key
conflicts, so the pending `b ↦ 2` overrides the incoming `b ↦ 9`; after
the second `handleCommandAsync` exactly one queue command for `r1`
remains — persisted under the new key, tracked, and enqueued — carrying
the merged payload, while the prior queue command is untracked,
depersisted, removed from the pending set, and was never dispatched. -/
theorem C4_patch_consolidation :
    (consolidate uP2.payload uP1.payload = [("b", 2), ("c", 3), ("a", 1)]) ∧
    ((handleCommand cfgOffline uP1 orchC4a).isOk = true ∧
      (handleCommand cfgOffline uP2 orchC4b).isOk = true) ∧
    (orchC4c.storage.map Prod.fst = ["o-r1u2"] ∧
      orchC4c.storage.map (fun p => p.2.command.payload) =
        [consolidate uP2.payload uP1.payload] ∧
      orchC4c.tracked = [1] ∧
      orchC4c.cs.queue = [1] ∧
      (lookupCmd 1 orchC4c.cs.cmds).map (fun q => q.command.payload) =
        some (consolidate uP2.payload uP1.payload)) ∧
    (0 ∉ orchC4c.tracked ∧
      0 ∉ orchC4c.cs.queue ∧
      "o-r1u1" ∉ orchC4c.storage.map Prod.fst ∧
      (∀ w, Ev.dequeueAttempt (some 0) w ∉ orchC4c.cs.log) ∧
      statusOf orchC4c.cs 0 = some .Initial) := by
  refine ⟨by decide, ⟨by decide, by decide⟩,
    ⟨by decide, by decide, by decide, by decide, by decide⟩,
    ⟨by decide, by decide, by decide, by decide, by decide⟩⟩

theorem removeQueueCommandTail_subscribed (id : Nat) (st : OrchState) :
    (removeQueueCommandTail id st).subscribed = st.subscribed := by
  unfold removeQueueCommandTail
  split <;> rfl

theorem finishHandle_isOk (cfg : ConsumerConfig) (newId : Nat) (qc : QueueCommand)
    (deferred : Option Nat) (st : OrchState) :
    (finishHandle cfg newId qc deferred st).isOk = true := by
  unfold finishHandle
  cases deferred <;> rfl

theorem finishHandle_subscribed (cfg : ConsumerConfig) (newId : Nat) (qc : QueueCommand)
    (deferred : Option Nat) (st d : OrchState) :
    (stepOk (finishHandle cfg newId qc deferred st) d).subscribed =
      st.subscribed ++ [newId] := by
  unfold finishHandle stepOk
  cases deferred
  · rfl
  · dsimp only
    rw [removeQueueCommandTail_subscribed]

theorem buildConsolidated_subscribed (u : UserCommand) (st : OrchState) :
    (buildConsolidated u st).1.subscribed = st.subscribed := by
  unfold buildConsolidated
  dsimp only
  split
  · split <;> rfl
  · rfl

/-! ## Claim C8: initialization gating of the orchestrator's operations -/

/-- C8, counterexample: the claim says `stop()` on a
never-initialized orchestrator fails with the uninitialized error, but
`stop()` performs no initialization check and never throws. -/
theorem C8_counterexample : ¬ C8ClaimAtStop := by
  rintro ⟨e, h⟩
  simp [C8ClaimAtStop, stopO] at h

/-- C8, amended: before `initializeAsync` completes, `handleCommandAsync`
and `start` fail with the uninitialized error, but `stop` checks nothing
and simply delegates to the consumer; after one successful
`initializeAsync` both operations proceed, and running `initializeAsync`
again is an exact no-op (persisted records are not loaded or re-admitted
a second time). -/
theorem C8_uninitialized_gating (cfg : ConsumerConfig) (u : UserCommand)
    (st₁ st₂ : OrchState) (h₁ : st₁.isInit = false) (h₂ : st₂.isInit = true) :
    (handleCommand cfg u st₁ = .error uninitMsg) ∧
    (startO cfg st₁ = .error uninitMsg) ∧
    (stopO st₁ = .ok { st₁ with cs := stopC st₁.cs }) ∧
    (initAsync cfg st₂ = st₂) ∧
    ((startO cfg st₂).isOk = true ∧ (handleCommand cfg u st₂).isOk = true) := by
  refine ⟨?_, ?_, rfl, ?_, ?_, ?_⟩
  · simp [handleCommand, h₁]
  · simp [startO, h₁]
  · unfold initAsync loadCommands
    rw [if_pos h₂]
    cases st₂
    simp_all
  · unfold startO
    simp only [h₂, Bool.not_true, Bool.false_eq_true, if_false]
    rfl
  · unfold handleCommand
    rw [h₂]
    simp only [Bool.not_true, Bool.false_eq_true, if_false]
    split <;> simp only [finishHandle_isOk]

/-- Witness for `C8_uninitialized_gating`: a fresh orchestrator (never
initialized) and the initialized orchestrator of the consolidation
scenario, with the first patch command. -/
theorem C8_uninitialized_gating_witness :
    ((orchNew "o" true []).isInit = false ∧ orchC4a.isInit = true) ∧
    ((handleCommand cfgOffline uP1 (orchNew "o" true []) = .error uninitMsg) ∧
      (startO cfgOffline (orchNew "o" true []) = .error uninitMsg) ∧
      (stopO (orchNew "o" true []) =
        .ok { orchNew "o" true [] with cs := stopC (orchNew "o" true []).cs }) ∧
      (initAsync cfgOffline orchC4a = orchC4a) ∧
      ((startO cfgOffline orchC4a).isOk = true ∧
        (handleCommand cfgOffline uP1 orchC4a).isOk = true)) :=
  ⟨⟨by decide, by decide⟩,
    C8_uninitialized_gating cfgOffline uP1 (orchNew "o" true []) orchC4a
      (by decide) (by decide)⟩

theorem foldl_loadOne_subscribed (cfg : ConsumerConfig) (l : List StoredRec) :
    ∀ st, (l.foldl (loadOne cfg) st).subscribed = st.subscribed := by
  induction l with
  | nil => intro st; rfl
  | cons r t ih =>
    intro st
    rw [List.foldl_cons, ih]
    unfold loadOne
    dsimp only
    split <;> rfl

/-! ## Claim C10: recovered commands get no completion cleanup -/

/-- C10: `initializeAsync` attaches no completion subscription to the
commands it re-admits from persisted records (`subscribed` is exactly
what it was), so when a recovered command's completion future resolves —
in the concrete recovery scenario the trace shows it resolving with
`true` — its persisted record stays in storage and it remains tracked
and in the patch index; the depersist-and-untrack cleanup is attached
only by `handleCommandAsync`, which always records its freshly built
command in `subscribed`. -/
theorem C10_recovery_attaches_no_cleanup (cfg : ConsumerConfig) (u : UserCommand)
    (st : OrchState) (h : st.isInit = true) :
    (∀ cfg' st', (initAsync cfg' st').subscribed = st'.subscribed) ∧
    (Ev.complFire 0 true ∈ orchC10c.cs.log ∧
      orchC10c.storage = [("o-r1u1", storedC10)] ∧
      orchC10c.tracked = [0] ∧
      orchC10c.patchIdx = [("r1", 0)]) ∧
    ((stepOk (handleCommand cfg u st) st).subscribed =
      st.subscribed ++ [st.nextId]) := by
  refine ⟨?_, ⟨by decide, by decide, by decide, by decide⟩, ?_⟩
  · intro cfg' st'
    show (loadCommands cfg' st').subscribed = st'.subscribed
    unfold loadCommands
    split
    · rfl
    · exact foldl_loadOne_subscribed cfg' _ st'
  · unfold handleCommand
    rw [h]
    simp only [Bool.not_true, Bool.false_eq_true, if_false]
    split <;> simp only [finishHandle_subscribed, buildConsolidated_subscribed]

/-- Witness for `C10_recovery_attaches_no_cleanup` at the initialized
consolidation-scenario orchestrator and the first patch command. -/
theorem C10_recovery_attaches_no_cleanup_witness :
    orchC4a.isInit = true ∧
    ((∀ cfg' st', (initAsync cfg' st').subscribed = st'.subscribed) ∧
      (Ev.complFire 0 true ∈ orchC10c.cs.log ∧
        orchC10c.storage = [("o-r1u1", storedC10)] ∧
        orchC10c.tracked = [0] ∧
        orchC10c.patchIdx = [("r1", 0)]) ∧
      ((stepOk (handleCommand cfgOffline uP1 orchC4a) orchC4a).subscribed =
        orchC4a.subscribed ++ [orchC4a.nextId])) :=
  ⟨by decide, C10_recovery_attaches_no_cleanup cfgOffline uP1 orchC4a (by decide)⟩

/-! ## The consumer invariant (claims C5 and C6)

Preservation of `Inv` and of `CompleteStable` through every action. -/

theorem CompleteStable.rfl' (s : CState) : CompleteStable s s := fun _ h => h

theorem CompleteStable.trans' {a b c : CState}
    (h1 : CompleteStable a b) (h2 : CompleteStable b c) : CompleteStable a c :=
  fun id h => h2 id (h1 id h)

theorem edgesOk_append (l1 l2 : List Ev) :
    edgesOk (l1 ++ l2) = (edgesOk l1 && edgesOk l2) := by
  unfold edgesOk
  exact List.all_append

theorem updateCmd_of_not_mem (id : Nat) (f : QueueCommand → QueueCommand)
    (l : List (Nat × QueueCommand)) (h : id ∉ l.map Prod.fst) :
    updateCmd id f l = l := by
  induction l with
  | nil => rfl
  | cons p t ih =>
    simp only [List.map_cons, List.mem_cons] at h
    push_neg at h
    rw [updateCmd_cons, if_neg (Ne.symm h.1), ih h.2]

theorem lookupCmd_of_not_mem (id : Nat) (l : List (Nat × QueueCommand))
    (h : id ∉ l.map Prod.fst) : lookupCmd id l = none := by
  induction l with
  | nil => rfl
  | cons p t ih =>
    simp only [List.map_cons, List.mem_cons] at h
    push_neg at h
    rw [lookupCmd_cons, if_neg (Ne.symm h.1), ih h.2]

theorem mem_keys_of_lookupCmd (id : Nat) (l : List (Nat × QueueCommand))
    (qc : QueueCommand) (h : lookupCmd id l = some qc) : id ∈ l.map Prod.fst := by
  by_contra hn
  rw [lookupCmd_of_not_mem id l hn] at h
  exact Option.noConfusion h

theorem lookupCmd_append_left (id : Nat) (l l2 : List (Nat × QueueCommand))
    (qc : QueueCommand) (h : lookupCmd id l = some qc) :
    lookupCmd id (l ++ l2) = some qc := by
  induction l with
  | nil => exact absurd h (by simp [lookupCmd])
  | cons p t ih =>
    rw [lookupCmd_cons] at h
    rw [List.cons_append, lookupCmd_cons]
    by_cases hp : p.1 = id
    · rwa [if_pos hp] at h ⊢
    · rw [if_neg hp] at h ⊢
      exact ih h

theorem lookupCmd_append_fresh (id : Nat) (l : List (Nat × QueueCommand))
    (qc : QueueCommand) (h : id ∉ l.map Prod.fst) :
    lookupCmd id (l ++ [(id, qc)]) = some qc := by
  induction l with
  | nil => simp [lookupCmd]
  | cons p t ih =>
    simp only [List.map_cons, List.mem_cons] at h
    push_neg at h
    rw [List.cons_append, lookupCmd_cons, if_neg (Ne.symm h.1)]
    exact ih h.2

theorem lookupCmd_append_singleton_ne (id id' : Nat) (l : List (Nat × QueueCommand))
    (qc : QueueCommand) (h : id' ≠ id) :
    lookupCmd id' (l ++ [(id, qc)]) = lookupCmd id' l := by
  induction l with
  | nil => simp [lookupCmd, List.find?, Ne.symm h, (by simpa using Ne.symm h : (id == id') = false)]
  | cons p t ih =>
    rw [List.cons_append, lookupCmd_cons, lookupCmd_cons]
    by_cases hp : p.1 = id'
    · rw [if_pos hp, if_pos hp]
    · rw [if_neg hp, if_neg hp]
      exact ih

theorem exists_lookup_update_info (l : List (Nat × QueueCommand)) (id id' : Nat)
    (f : QueueCommand → QueueCommand) (hf : ∀ q, (f q).queueInfo = q.queueInfo)
    (qc : QueueCommand) (hl : lookupCmd id' l = some qc) :
    ∃ qc', lookupCmd id' (updateCmd id f l) = some qc' ∧ qc'.queueInfo = qc.queueInfo := by
  by_cases h : id' = id
  · subst h
    rw [lookupCmd_updateCmd_self, hl]
    exact ⟨f qc, rfl, hf qc⟩
  · rw [lookupCmd_updateCmd_of_ne _ _ _ _ h]
    exact ⟨qc, hl, rfl⟩

theorem filterProc_update_info_eq (id : Nat) (f : QueueCommand → QueueCommand)
    (l : List (Nat × QueueCommand)) (hf : ∀ q, (f q).queueInfo = q.queueInfo) :
    ((updateCmd id f l).filter
        (fun p => p.2.queueInfo.status == QueueStatus.Processing)).length
      = (l.filter (fun p => p.2.queueInfo.status == QueueStatus.Processing)).length := by
  induction l with
  | nil => rfl
  | cons p t ih =>
    rw [updateCmd_cons]
    by_cases h : p.1 = id
    · rw [if_pos h]
      have hs : (f p.2).queueInfo.status = p.2.queueInfo.status :=
        congrArg QueueInfo.status (hf p.2)
      simp only [List.filter_cons, hs]
      split <;> simp [ih]
    · rw [if_neg h]
      simp only [List.filter_cons]
      split <;> simp [ih]

theorem lookupCmd_info_update (s : CState) (id : Nat) (f : QueueCommand → QueueCommand)
    (hf : ∀ q, (f q).queueInfo = q.queueInfo) (id' : Nat) :
    (lookupCmd id' (updateCmd id f s.cmds)).map (fun q => q.queueInfo)
      = (lookupCmd id' s.cmds).map (fun q => q.queueInfo) := by
  by_cases h : id' = id
  · subst h
    rw [lookupCmd_updateCmd_self]
    cases lookupCmd id' s.cmds <;> simp [hf]
  · rw [lookupCmd_updateCmd_of_ne _ _ _ _ h]

/-- Workhorse: a state transformation that keeps the command identities,
all `queueInfo`s, the pending set, the continuation keys and
`processCount`, and only appends allowed events to the log, preserves
the invariant and the stability of `Complete`. -/
theorem inv_of_fields (s s' : CState) (h : Inv s)
    (hkeys : s'.cmds.map Prod.fst = s.cmds.map Prod.fst)
    (hinfo : ∀ id', (lookupCmd id' s'.cmds).map (fun q => q.queueInfo)
        = (lookupCmd id' s.cmds).map (fun q => q.queueInfo))
    (hq : s'.queue = s.queue)
    (hp : s'.pend.map Prod.fst = s.pend.map Prod.fst)
    (hcount : s'.processCount = s.processCount)
    (hfc : (s'.cmds.filter (fun p => p.2.queueInfo.status == QueueStatus.Processing)).length
        = (s.cmds.filter (fun p => p.2.queueInfo.status == QueueStatus.Processing)).length)
    (hlog : ∃ evs, s'.log = s.log ++ evs ∧ edgesOk evs = true) :
    Inv s' ∧ CompleteStable s s' := by
  obtain ⟨evs, hl, he⟩ := hlog
  have hstat : ∀ id', statusOf s' id' = statusOf s id' := by
    intro id'
    unfold statusOf
    have := hinfo id'
    cases h1 : lookupCmd id' s'.cmds <;> cases h2 : lookupCmd id' s.cmds <;>
      rw [h1, h2] at this <;> simp_all
  refine ⟨⟨?_, ?_, ?_, ?_, ?_, ?_, ?_⟩, ?_⟩
  · rw [hkeys]; exact h.nodupCmds
  · rw [hq]; exact h.nodupQueue
  · rw [hp]; exact h.nodupPend
  · intro id hid
    rw [hq] at hid
    obtain ⟨qc, hqc, hst⟩ := h.queueInit id hid
    have := hinfo id
    rw [hqc] at this
    cases h' : lookupCmd id s'.cmds
    · rw [h'] at this; simp at this
    · rw [h'] at this
      simp only [Option.map_some'] at this
      injection this with this
      exact ⟨_, rfl, by rw [congrArg QueueInfo.status this]; exact hst⟩
  · intro id hid
    rw [hp] at hid
    obtain ⟨qc, hqc, hst⟩ := h.pendProc id hid
    have := hinfo id
    rw [hqc] at this
    cases h' : lookupCmd id s'.cmds
    · rw [h'] at this; simp at this
    · rw [h'] at this
      simp only [Option.map_some'] at this
      injection this with this
      exact ⟨_, rfl, by rw [congrArg QueueInfo.status this]; exact hst⟩
  · rw [hcount, h.countEq]
    unfold countProcessing
    rw [hfc]
  · rw [hl, edgesOk_append, h.edges, he]; rfl
  · intro id hc
    rw [hstat id]
    exact hc

theorem lookupCmd_isSome_of_mem (id : Nat) (l : List (Nat × QueueCommand))
    (h : id ∈ l.map Prod.fst) : (lookupCmd id l).isSome = true := by
  induction l with
  | nil => simp at h
  | cons p t ih =>
    rw [lookupCmd_cons]
    by_cases hp : p.1 = id
    · rw [if_pos hp]; rfl
    · rw [if_neg hp]
      simp only [List.map_cons, List.mem_cons] at h
      exact ih (h.resolve_left (fun he => hp he.symm))

/-- `#processCommand` on a known command, as one record update. -/
theorem processCommand_eq (id : Nat) (s : CState) (qc : QueueCommand)
    (hl : lookupCmd id s.cmds = some qc) :
    processCommand id s = { s with
      cmds := updateCmd id (setStatusF .Processing)
        (updateCmd id (setExecF qc.command.onExec.onExecuteOp.1) s.cmds),
      pend := s.pend ++ [(id,
        match qc.command.onExec.onExecuteOp.2 with
        | .resolved v => some (v.getD false)
        | .pending => none)],
      processCount := s.processCount + 1,
      log := s.log ++ [.setStatus id qc.queueInfo.status .Processing, .notify id .Processing] } := by
  simp [processCommand, hl, setStatus, notifyStatus, lookupCmd_updateCmd_self,
    setStatusF_def, setExecF_def]

/-- The success branch of `completedCommandExecution`, as one record
update (up to the final wake re-check). -/
theorem completedCommandExecution_true_eq (cfg : ConsumerConfig) (id : Nat)
    (s : CState) (qc : QueueCommand) (hl : lookupCmd id s.cmds = some qc) :
    completedCommandExecution cfg id true s = resumeCheck cfg { s with
      cmds := updateCmd id (setComplF (qc.onCompl.completedOp true).1)
        (updateCmd id (setStatusF .Complete) s.cmds),
      processCount := s.processCount - 1,
      log := s.log ++ [.setStatus id qc.queueInfo.status .Complete] ++
        (if qc.onCompl.hasResolve then [.complFire id true] else []) } := by
  by_cases h : qc.onCompl.hasResolve <;>
    simp [completedCommandExecution, setStatus, completedFire, OnComplete.completedOp,
      lookupCmd_updateCmd_self, hl, h, setStatusF_def, setComplF_def]

/-- The retry branch of `#handleRetry`, as one record update (up to the
wake re-checks, which change only the resolver slot and the woken
count). -/
theorem handleRetry_retry_eq (cfg : ConsumerConfig) (id : Nat)
    (s : CState) (qc : QueueCommand) (hl : lookupCmd id s.cmds = some qc)
    (hr : (match cfg.retryPolicyEvaluator with
      | some e => e.shouldRetry qc.command
          { qc.queueInfo with attemptNo := qc.queueInfo.attemptNo + 1 }
      | none => false) = true) :
    handleRetry cfg id s =
      { resumeCheck cfg (resumeCheck cfg { s with
          cmds := updateCmd id (setStatusF .Initial)
            (updateCmd id
              (setInfoF { qc.queueInfo with attemptNo := qc.queueInfo.attemptNo + 1 })
              s.cmds),
          queue := setAdd id s.queue,
          log := s.log ++ [.setStatus id qc.queueInfo.status .Initial] })
        with processCount := s.processCount - 1 } := by
  simp [handleRetry, hl, hr, setStatus, enqueueC, lookupCmd_updateCmd_self,
    setStatusF_def, setInfoF_def]

/-- The denial branch of `#handleRetry`, as one record update (up to the
wake re-check). -/
theorem handleRetry_deny_eq (cfg : ConsumerConfig) (id : Nat)
    (s : CState) (qc : QueueCommand) (hl : lookupCmd id s.cmds = some qc)
    (hr : (match cfg.retryPolicyEvaluator with
      | some e => e.shouldRetry qc.command
          { qc.queueInfo with attemptNo := qc.queueInfo.attemptNo + 1 }
      | none => false) = false) :
    handleRetry cfg id s = { s with
      cmds := updateCmd id (setComplF (qc.onCompl.completedOp false).1)
        (updateCmd id (setStatusF .Complete)
          (updateCmd id
            (setInfoF { qc.queueInfo with attemptNo := qc.queueInfo.attemptNo + 1 })
            s.cmds)),
      processCount := s.processCount - 1,
      log := s.log ++ [.setStatus id qc.queueInfo.status .Complete, .notify id .Complete] ++
        (if qc.onCompl.hasResolve then [.complFire id false] else []) } := by
  by_cases h : qc.onCompl.hasResolve <;>
    simp [handleRetry, hl, hr, setStatus, notifyStatus, completedFire,
      OnComplete.completedOp, lookupCmd_updateCmd_self, h, setStatusF_def, setInfoF_def, setComplF_def]

theorem inv_resumeCheck (cfg : ConsumerConfig) (s : CState) (h : Inv s) :
    Inv (resumeCheck cfg s) ∧ CompleteStable s (resumeCheck cfg s) :=
  inv_of_fields s _ h (by rw [resumeCheck_cmds]) (fun id' => by rw [resumeCheck_cmds])
    (resumeCheck_queue cfg s) (by rw [resumeCheck_pend]) (resumeCheck_processCount cfg s)
    (by rw [resumeCheck_cmds]) ⟨[], by rw [resumeCheck_log, List.append_nil], rfl⟩

theorem inv_stopC (s : CState) (h : Inv s) :
    Inv (stopC s) ∧ CompleteStable s (stopC s) :=
  inv_of_fields s _ h rfl (fun _ => rfl) rfl rfl rfl rfl ⟨[], by simp [stopC], rfl⟩

theorem inv_subscribeComplete (id : Nat) (s : CState) (h : Inv s) :
    Inv (subscribeComplete id s) ∧ CompleteStable s (subscribeComplete id s) := by
  unfold subscribeComplete
  cases hl : lookupCmd id s.cmds with
  | none => exact ⟨h, fun _ hc => hc⟩
  | some qc =>
    dsimp only
    exact inv_of_fields s _ h (by dsimp only; rw [updateCmd_map_fst])
      (fun id' => by dsimp only; apply lookupCmd_info_update <;> intro q <;> rfl)
      rfl rfl rfl (by dsimp only; apply filterProc_update_info_eq <;> intro q <;> rfl)
      ⟨[], by simp, rfl⟩

theorem inv_execSignal (id : Nat) (v : Bool) (s : CState) (h : Inv s) :
    Inv (execSignal id v s) ∧ CompleteStable s (execSignal id v s) := by
  unfold execSignal
  cases hl : lookupCmd id s.cmds with
  | none => exact ⟨h, fun _ hc => hc⟩
  | some qc =>
    dsimp only
    cases hd : (qc.command.onExec.executedOp v).2 with
    | none =>
      dsimp only
      exact inv_of_fields s _ h (by dsimp only; rw [updateCmd_map_fst])
        (fun id' => by dsimp only; apply lookupCmd_info_update <;> intro q <;> rfl)
        rfl rfl rfl (by dsimp only; apply filterProc_update_info_eq <;> intro q <;> rfl)
        ⟨[], by simp, rfl⟩
    | some d =>
      dsimp only
      refine inv_of_fields s _ h (by dsimp only; rw [updateCmd_map_fst])
        (fun id' => by dsimp only; apply lookupCmd_info_update <;> intro q <;> rfl)
        rfl ?_ rfl (by dsimp only; apply filterProc_update_info_eq <;> intro q <;> rfl)
        ⟨[], by simp, rfl⟩
      dsimp only
      rw [List.map_map]
      apply List.map_congr_left
      intro p _
      dsimp only [Function.comp]
      split <;> rfl

theorem inv_removeC (id : Nat) (s : CState) (h : Inv s) :
    Inv (removeC id s) ∧ CompleteStable s (removeC id s) := by
  refine ⟨⟨h.nodupCmds, h.nodupQueue.erase id, h.nodupPend, ?_, h.pendProc,
    h.countEq, h.edges⟩, fun _ hc => hc⟩
  intro id' hid'
  exact h.queueInit id' (List.mem_of_mem_erase hid')

theorem inv_enqueueNewC (cfg : ConsumerConfig) (id : Nat) (u : UserCommand)
    (s : CState) (h : Inv s) :
    Inv (enqueueNewC cfg id u s) ∧ CompleteStable s (enqueueNewC cfg id u s) := by
  unfold enqueueNewC
  by_cases hl : (lookupCmd id s.cmds).isSome
  · rw [if_pos hl]
    exact ⟨h, fun _ hc => hc⟩
  · rw [if_neg hl]
    have hfresh : id ∉ s.cmds.map Prod.fst := by
      intro hmem
      exact hl (lookupCmd_isSome_of_mem id s.cmds hmem)
    have hnotq : id ∉ s.queue := by
      intro hq
      obtain ⟨qc, hqc, _⟩ := h.queueInit id hq
      exact hfresh (mem_keys_of_lookupCmd id s.cmds qc hqc)
    unfold enqueueC
    set s₃ : CState := { s with
      cmds := s.cmds ++ [(id, QueueCommand.mkNew u)],
      queue := setAdd id s.queue } with hs₃
    have hinv3 : Inv s₃ ∧ CompleteStable s s₃ := by
      constructor
      · refine ⟨?_, ?_, h.nodupPend, ?_, ?_, ?_, h.edges⟩
        · show ((s.cmds ++ [(id, QueueCommand.mkNew u)]).map Prod.fst).Nodup
          rw [List.map_append, List.nodup_append]
          refine ⟨h.nodupCmds, by simp, ?_⟩
          intro a ha hb
          simp only [List.map_cons, List.map_nil, List.mem_singleton] at hb
          subst hb
          exact hfresh ha
        · show (setAdd id s.queue).Nodup
          rw [setAdd, if_neg hnotq, List.nodup_append]
          refine ⟨h.nodupQueue, by simp, ?_⟩
          intro a ha hb
          simp only [List.mem_singleton] at hb
          subst hb
          exact hnotq ha
        · intro id' hid'
          simp only [hs₃, setAdd, if_neg hnotq, List.mem_append, List.mem_singleton] at hid'
          rcases hid' with hid' | hEq
          · obtain ⟨qc, hqc, hst⟩ := h.queueInit id' hid'
            have hne : id' ≠ id := fun he =>
              hfresh (he ▸ mem_keys_of_lookupCmd id' s.cmds qc hqc)
            exact ⟨qc, by
              show lookupCmd id' (s.cmds ++ [(id, QueueCommand.mkNew u)]) = some qc
              rw [lookupCmd_append_singleton_ne _ _ _ _ hne]
              exact hqc, hst⟩
          · subst hEq
            exact ⟨QueueCommand.mkNew u,
              lookupCmd_append_fresh id' s.cmds _ hfresh, rfl⟩
        · intro id' hid'
          obtain ⟨qc, hqc, hst⟩ := h.pendProc id' hid'
          have hne : id' ≠ id := fun he =>
            hfresh (he ▸ mem_keys_of_lookupCmd id' s.cmds qc hqc)
          exact ⟨qc, by
            show lookupCmd id' (s.cmds ++ [(id, QueueCommand.mkNew u)]) = some qc
            rw [lookupCmd_append_singleton_ne _ _ _ _ hne]
            exact hqc, hst⟩
        · show s.processCount = _
          rw [h.countEq]
          unfold countProcessing
          simp [List.filter_append, QueueCommand.mkNew, QueueInfo.init]
      · intro id' hc
        unfold statusOf at hc ⊢
        have hne : id' ≠ id := by
          intro he
          subst he
          rw [lookupCmd_of_not_mem _ _ hfresh] at hc
          exact Option.noConfusion hc
        show (lookupCmd id' (s.cmds ++ [(id, QueueCommand.mkNew u)])).map _ = _
        rw [lookupCmd_append_singleton_ne _ _ _ _ hne]
        exact hc
    obtain ⟨h3, hst3⟩ := hinv3
    obtain ⟨h4, hst4⟩ := inv_resumeCheck cfg s₃ h3
    exact ⟨h4, hst3.trans' hst4⟩

theorem filterProc_update (id : Nat) (f : QueueCommand → QueueCommand)
    (l : List (Nat × QueueCommand)) (qc : QueueCommand)
    (hnd : (l.map Prod.fst).Nodup) (hl : lookupCmd id l = some qc) :
    ((updateCmd id f l).filter
        (fun p => p.2.queueInfo.status == QueueStatus.Processing)).length
      + (if qc.queueInfo.status == QueueStatus.Processing then 1 else 0)
    = (l.filter (fun p => p.2.queueInfo.status == QueueStatus.Processing)).length
      + (if (f qc).queueInfo.status == QueueStatus.Processing then 1 else 0) := by
  induction l with
  | nil => exact absurd hl (by simp [lookupCmd])
  | cons p t ih =>
    rw [lookupCmd_cons] at hl
    rw [updateCmd_cons]
    simp only [List.map_cons, List.nodup_cons] at hnd
    by_cases h : p.1 = id
    · rw [if_pos h] at hl ⊢
      injection hl with hl
      subst hl
      rw [updateCmd_of_not_mem id f t (h ▸ hnd.1)]
      simp only [List.filter_cons]
      by_cases h1 : p.2.queueInfo.status == QueueStatus.Processing <;>
        by_cases h2 : (f p.2).queueInfo.status == QueueStatus.Processing <;>
          simp [h1, h2] <;> omega
    · rw [if_neg h] at hl ⊢
      have hih := ih hnd.2 hl
      simp only [List.filter_cons]
      split
      · simp only [List.length_cons]
        omega
      · omega

theorem filterProc_update_keep (id : Nat) (f : QueueCommand → QueueCommand)
    (l : List (Nat × QueueCommand)) (qc : QueueCommand)
    (hnd : (l.map Prod.fst).Nodup) (hl : lookupCmd id l = some qc)
    (hf : (f qc).queueInfo.status = qc.queueInfo.status) :
    ((updateCmd id f l).filter
        (fun p => p.2.queueInfo.status == QueueStatus.Processing)).length
      = (l.filter (fun p => p.2.queueInfo.status == QueueStatus.Processing)).length := by
  have h := filterProc_update id f l qc hnd hl
  rw [hf] at h
  omega

theorem filterProc_update_enter (id : Nat) (f : QueueCommand → QueueCommand)
    (l : List (Nat × QueueCommand)) (qc : QueueCommand)
    (hnd : (l.map Prod.fst).Nodup) (hl : lookupCmd id l = some qc)
    (h0 : (qc.queueInfo.status == QueueStatus.Processing) = false)
    (h1 : ((f qc).queueInfo.status == QueueStatus.Processing) = true) :
    ((updateCmd id f l).filter
        (fun p => p.2.queueInfo.status == QueueStatus.Processing)).length
      = (l.filter (fun p => p.2.queueInfo.status == QueueStatus.Processing)).length + 1 := by
  have h := filterProc_update id f l qc hnd hl
  rw [h0, h1] at h
  simp at h
  omega

theorem filterProc_update_exit (id : Nat) (f : QueueCommand → QueueCommand)
    (l : List (Nat × QueueCommand)) (qc : QueueCommand)
    (hnd : (l.map Prod.fst).Nodup) (hl : lookupCmd id l = some qc)
    (h0 : (qc.queueInfo.status == QueueStatus.Processing) = true)
    (h1 : ((f qc).queueInfo.status == QueueStatus.Processing) = false) :
    ((updateCmd id f l).filter
        (fun p => p.2.queueInfo.status == QueueStatus.Processing)).length + 1
      = (l.filter (fun p => p.2.queueInfo.status == QueueStatus.Processing)).length := by
  have h := filterProc_update id f l qc hnd hl
  rw [h0, h1] at h
  simp at h
  omega

/-- `#processCommand` of a pending-set member: the command moves
`Initial → Processing`, its continuation joins the installed set, the
count rises by one, and everything else of the invariant carries over. -/
theorem inv_processCommand (id : Nat) (s : CState) (h : Inv s)
    (qc : QueueCommand) (hl : lookupCmd id s.cmds = some qc)
    (hInit : qc.queueInfo.status = .Initial) (hqnotin : id ∉ s.queue) :
    Inv (processCommand id s) ∧ CompleteStable s (processCommand id s) := by
  rw [processCommand_eq id s qc hl]
  have hpnotin : id ∉ s.pend.map Prod.fst := by
    intro hid
    obtain ⟨qc', hqc', hst⟩ := h.pendProc id hid
    rw [hl] at hqc'
    injection hqc' with hqc'
    subst hqc'
    rw [hInit] at hst
    exact QueueStatus.noConfusion hst
  have hl1 : lookupCmd id (updateCmd id (setExecF qc.command.onExec.onExecuteOp.1) s.cmds) =
      some (setExecF qc.command.onExec.onExecuteOp.1 qc) := by
    rw [lookupCmd_updateCmd_self, hl]; rfl
  have hkeys1 : ((updateCmd id (setExecF qc.command.onExec.onExecuteOp.1) s.cmds).map
      Prod.fst).Nodup := by
    rw [updateCmd_map_fst]; exact h.nodupCmds
  constructor
  · refine ⟨?_, ?_, ?_, ?_, ?_, ?_, ?_⟩ <;> (try dsimp only)
    · rw [updateCmd_map_fst, updateCmd_map_fst]
      exact h.nodupCmds
    · exact h.nodupQueue
    · rw [List.map_append, List.nodup_append]
      refine ⟨h.nodupPend, by simp, ?_⟩
      intro a ha hb
      simp only [List.map_cons, List.map_nil, List.mem_singleton] at hb
      subst hb
      exact hpnotin ha
    · intro id' hid'
      obtain ⟨qc', hqc', hst⟩ := h.queueInit id' hid'
      have hne : id' ≠ id := fun he => hqnotin (he ▸ hid')
      refine ⟨qc', ?_, hst⟩
      rw [lookupCmd_updateCmd_of_ne _ _ _ _ hne, lookupCmd_updateCmd_of_ne _ _ _ _ hne]
      exact hqc'
    · intro id' hid'
      have hid'' : id' ∈ s.pend.map Prod.fst ∨ id' = id := by
        rw [List.map_append] at hid'
        simpa using hid'
      rcases hid'' with hid'' | hEq
      · obtain ⟨qc', hqc', hst⟩ := h.pendProc id' hid''
        have hne : id' ≠ id := fun he => hpnotin (he ▸ hid'')
        refine ⟨qc', ?_, hst⟩
        rw [lookupCmd_updateCmd_of_ne _ _ _ _ hne, lookupCmd_updateCmd_of_ne _ _ _ _ hne]
        exact hqc'
      · subst hEq
        rw [lookupCmd_updateCmd_self, hl1]
        exact ⟨_, rfl, rfl⟩
    · rw [h.countEq]
      unfold countProcessing
      dsimp only
      have h1 := filterProc_update_enter id (setStatusF .Processing) _ _ hkeys1 hl1
        (by simp [hInit]) (by simp)
      have h2 := filterProc_update_info_eq id (setExecF qc.command.onExec.onExecuteOp.1)
        s.cmds (fun q => rfl)
      rw [h2] at h1
      omega
    · rw [edgesOk_append, h.edges]
      rw [hInit]
      rfl
  · intro id' hc
    unfold statusOf at hc ⊢
    dsimp only
    have hne : id' ≠ id := by
      intro he
      subst he
      rw [hl] at hc
      simp only [Option.map_some'] at hc
      injection hc with hc
      rw [hInit] at hc
      exact QueueStatus.noConfusion hc
    rw [lookupCmd_updateCmd_of_ne _ _ _ _ hne, lookupCmd_updateCmd_of_ne _ _ _ _ hne]
    exact hc

/-- One checked loop iteration's dequeue-and-process. -/
theorem inv_dispatchHead (cfg : ConsumerConfig) (s : CState) (h : Inv s) :
    Inv (dispatchHead cfg s) ∧ CompleteStable s (dispatchHead cfg s) := by
  unfold dispatchHead
  cases hq : s.queue with
  | nil =>
    dsimp only
    exact inv_of_fields s _ h rfl (fun _ => rfl) (by rw [hq]) rfl rfl rfl
      ⟨[.dequeueAttempt none (shouldConsumerWait cfg s)], rfl, rfl⟩
  | cons id rest =>
    dsimp only
    have hmem : id ∈ s.queue := by rw [hq]; exact List.mem_cons_self id rest
    obtain ⟨qc, hl, hInit⟩ := h.queueInit id hmem
    have hnodup : (id :: rest).Nodup := hq ▸ h.nodupQueue
    have hrest : id ∉ rest := by
      rw [List.nodup_cons] at hnodup
      exact hnodup.1
    have h1 : Inv { s with
          queue := rest,
          log := s.log ++ [.dequeueAttempt (some id) (shouldConsumerWait cfg s)] } ∧
        CompleteStable s { s with
          queue := rest,
          log := s.log ++ [.dequeueAttempt (some id) (shouldConsumerWait cfg s)] } := by
      refine ⟨⟨h.nodupCmds, ?_, h.nodupPend, ?_, h.pendProc, h.countEq, ?_⟩, fun _ hc => hc⟩
      · rw [List.nodup_cons] at hnodup
        exact hnodup.2
      · intro id' hid'
        exact h.queueInit id' (by rw [hq]; exact List.mem_cons_of_mem id hid')
      · rw [edgesOk_append, h.edges]
        rfl
    obtain ⟨h1i, h1s⟩ := h1
    obtain ⟨h2i, h2s⟩ := inv_processCommand id _ h1i qc hl hInit hrest
    exact ⟨h2i, h1s.trans' h2s⟩

/-- `#handleRetry` on an in-flight command (`Processing`, continuation
already removed): retry re-admits it as `Initial`, denial completes it;
either way the count drops by one. -/
theorem inv_handleRetry (cfg : ConsumerConfig) (id : Nat) (s : CState) (h : Inv s)
    (qc : QueueCommand) (hl : lookupCmd id s.cmds = some qc)
    (hProc : qc.queueInfo.status = .Processing)
    (hpnotin : id ∉ s.pend.map Prod.fst) :
    Inv (handleRetry cfg id s) ∧ CompleteStable s (handleRetry cfg id s) := by
  have hqnotin : id ∉ s.queue := by
    intro hq
    obtain ⟨qc', hqc', hst⟩ := h.queueInit id hq
    rw [hl] at hqc'
    injection hqc' with hqc'
    subst hqc'
    rw [hProc] at hst
    exact QueueStatus.noConfusion hst
  set i : QueueInfo := { qc.queueInfo with attemptNo := qc.queueInfo.attemptNo + 1 } with hi
  have his : i.status = QueueStatus.Processing := hProc
  have hfilterU1 : ((updateCmd id (setInfoF i) s.cmds).filter
        (fun p => p.2.queueInfo.status == QueueStatus.Processing)).length
      = (s.cmds.filter (fun p => p.2.queueInfo.status == QueueStatus.Processing)).length :=
    filterProc_update_keep id (setInfoF i) s.cmds qc h.nodupCmds hl
      (by rw [setInfoF_info])
  have hl1 : lookupCmd id (updateCmd id (setInfoF i) s.cmds) = some (setInfoF i qc) := by
    rw [lookupCmd_updateCmd_self, hl]; rfl
  have hst1 : (setInfoF i qc).queueInfo.status = QueueStatus.Processing := by
    rw [setInfoF_info, his]
  have hkeys1 : ((updateCmd id (setInfoF i) s.cmds).map Prod.fst).Nodup := by
    rw [updateCmd_map_fst]; exact h.nodupCmds
  cases hr : (match cfg.retryPolicyEvaluator with
    | some e => e.shouldRetry qc.command
        { qc.queueInfo with attemptNo := qc.queueInfo.attemptNo + 1 }
    | none => false) with
  | true =>
    rw [handleRetry_retry_eq cfg id s qc hl hr, ← hi]
    constructor
    · refine ⟨?_, ?_, ?_, ?_, ?_, ?_, ?_⟩ <;>
        simp only [resumeCheck_cmds, resumeCheck_queue, resumeCheck_pend,
          resumeCheck_processCount, resumeCheck_log] <;> (try dsimp only)
      · rw [updateCmd_map_fst, updateCmd_map_fst]
        exact h.nodupCmds
      · rw [setAdd, if_neg hqnotin, List.nodup_append]
        refine ⟨h.nodupQueue, by simp, ?_⟩
        intro a ha hb
        simp only [List.mem_singleton] at hb
        subst hb
        exact hqnotin ha
      · exact h.nodupPend
      · intro id' hid'
        rw [setAdd, if_neg hqnotin, List.mem_append, List.mem_singleton] at hid'
        rcases hid' with hid' | hEq
        · obtain ⟨qc', hqc', hst⟩ := h.queueInit id' hid'
          have hne : id' ≠ id := fun he => hqnotin (he ▸ hid')
          refine ⟨qc', ?_, hst⟩
          rw [lookupCmd_updateCmd_of_ne _ _ _ _ hne, lookupCmd_updateCmd_of_ne _ _ _ _ hne]
          exact hqc'
        · subst hEq
          rw [lookupCmd_updateCmd_self, hl1]
          exact ⟨_, rfl, rfl⟩
      · intro id' hid'
        obtain ⟨qc', hqc', hst⟩ := h.pendProc id' hid'
        have hne : id' ≠ id := fun he => hpnotin (he ▸ hid')
        refine ⟨qc', ?_, hst⟩
        rw [lookupCmd_updateCmd_of_ne _ _ _ _ hne, lookupCmd_updateCmd_of_ne _ _ _ _ hne]
        exact hqc'
      · rw [h.countEq]
        unfold countProcessing
        dsimp only
        have h2 := filterProc_update_exit id (setStatusF .Initial) _ _ hkeys1 hl1
          (by rw [hst1]; rfl) (by simp)
        rw [hfilterU1] at h2
        omega
      · rw [edgesOk_append, h.edges, hProc]
        rfl
    · intro id' hc
      unfold statusOf at hc ⊢
      simp only [resumeCheck_cmds]
      have hne : id' ≠ id := by
        intro he
        subst he
        rw [hl] at hc
        simp only [Option.map_some'] at hc
        injection hc with hc
        rw [hProc] at hc
        exact QueueStatus.noConfusion hc
      rw [lookupCmd_updateCmd_of_ne _ _ _ _ hne, lookupCmd_updateCmd_of_ne _ _ _ _ hne]
      exact hc
  | false =>
    rw [handleRetry_deny_eq cfg id s qc hl hr, ← hi]
    constructor
    · refine ⟨?_, ?_, ?_, ?_, ?_, ?_, ?_⟩ <;> (try dsimp only)
      · rw [updateCmd_map_fst, updateCmd_map_fst, updateCmd_map_fst]
        exact h.nodupCmds
      · exact h.nodupQueue
      · exact h.nodupPend
      · intro id' hid'
        obtain ⟨qc', hqc', hst⟩ := h.queueInit id' hid'
        have hne : id' ≠ id := fun he => hqnotin (he ▸ hid')
        refine ⟨qc', ?_, hst⟩
        rw [lookupCmd_updateCmd_of_ne _ _ _ _ hne, lookupCmd_updateCmd_of_ne _ _ _ _ hne,
          lookupCmd_updateCmd_of_ne _ _ _ _ hne]
        exact hqc'
      · intro id' hid'
        obtain ⟨qc', hqc', hst⟩ := h.pendProc id' hid'
        have hne : id' ≠ id := fun he => hpnotin (he ▸ hid')
        refine ⟨qc', ?_, hst⟩
        rw [lookupCmd_updateCmd_of_ne _ _ _ _ hne, lookupCmd_updateCmd_of_ne _ _ _ _ hne,
          lookupCmd_updateCmd_of_ne _ _ _ _ hne]
        exact hqc'
      · rw [h.countEq]
        unfold countProcessing
        dsimp only
        have h2 := filterProc_update_exit id (setStatusF .Complete) _ _ hkeys1 hl1
          (by rw [hst1]; rfl) (by simp)
        rw [hfilterU1] at h2
        have h3 := filterProc_update_info_eq id (setComplF (qc.onCompl.completedOp false).1)
          (updateCmd id (setStatusF .Complete) (updateCmd id (setInfoF i) s.cmds))
          (fun q => rfl)
        rw [h3]
        omega
      · rw [edgesOk_append, edgesOk_append, h.edges, hProc]
        cases hres : qc.onCompl.hasResolve <;> rfl
    · intro id' hc
      unfold statusOf at hc ⊢
      dsimp only
      have hne : id' ≠ id := by
        intro he
        subst he
        rw [hl] at hc
        simp only [Option.map_some'] at hc
        injection hc with hc
        rw [hProc] at hc
        exact QueueStatus.noConfusion hc
      rw [lookupCmd_updateCmd_of_ne _ _ _ _ hne, lookupCmd_updateCmd_of_ne _ _ _ _ hne,
        lookupCmd_updateCmd_of_ne _ _ _ _ hne]
      exact hc

theorem ccE_false_eq (cfg : ConsumerConfig) (id : Nat) (s : CState) :
    completedCommandExecution cfg id false s = resumeCheck cfg (handleRetry cfg id s) := rfl

/-- `completedCommandExecution` on an in-flight command. -/
theorem inv_ccE (cfg : ConsumerConfig) (id : Nat) (success : Bool) (s : CState)
    (h : Inv s) (qc : QueueCommand) (hl : lookupCmd id s.cmds = some qc)
    (hProc : qc.queueInfo.status = .Processing)
    (hpnotin : id ∉ s.pend.map Prod.fst) :
    Inv (completedCommandExecution cfg id success s) ∧
      CompleteStable s (completedCommandExecution cfg id success s) := by
  cases success with
  | false =>
    rw [ccE_false_eq]
    obtain ⟨h1, hs1⟩ := inv_handleRetry cfg id s h qc hl hProc hpnotin
    obtain ⟨h2, hs2⟩ := inv_resumeCheck cfg _ h1
    exact ⟨h2, hs1.trans' hs2⟩
  | true =>
    rw [completedCommandExecution_true_eq cfg id s qc hl]
    have hqnotin : id ∉ s.queue := by
      intro hq
      obtain ⟨qc', hqc', hst⟩ := h.queueInit id hq
      rw [hl] at hqc'
      injection hqc' with hqc'
      subst hqc'
      rw [hProc] at hst
      exact QueueStatus.noConfusion hst
    have hl1 : lookupCmd id (updateCmd id (setStatusF .Complete) s.cmds) =
        some (setStatusF .Complete qc) := by
      rw [lookupCmd_updateCmd_self, hl]; rfl
    have hinner : Inv { s with
        cmds := updateCmd id (setComplF (qc.onCompl.completedOp true).1)
          (updateCmd id (setStatusF .Complete) s.cmds),
        processCount := s.processCount - 1,
        log := s.log ++ [.setStatus id qc.queueInfo.status .Complete] ++
          (if qc.onCompl.hasResolve then [.complFire id true] else []) } ∧
        CompleteStable s { s with
          cmds := updateCmd id (setComplF (qc.onCompl.completedOp true).1)
            (updateCmd id (setStatusF .Complete) s.cmds),
          processCount := s.processCount - 1,
          log := s.log ++ [.setStatus id qc.queueInfo.status .Complete] ++
            (if qc.onCompl.hasResolve then [.complFire id true] else []) } := by
      constructor
      · refine ⟨?_, ?_, ?_, ?_, ?_, ?_, ?_⟩ <;> (try dsimp only)
        · rw [updateCmd_map_fst, updateCmd_map_fst]
          exact h.nodupCmds
        · exact h.nodupQueue
        · exact h.nodupPend
        · intro id' hid'
          obtain ⟨qc', hqc', hst⟩ := h.queueInit id' hid'
          have hne : id' ≠ id := fun he => hqnotin (he ▸ hid')
          refine ⟨qc', ?_, hst⟩
          rw [lookupCmd_updateCmd_of_ne _ _ _ _ hne, lookupCmd_updateCmd_of_ne _ _ _ _ hne]
          exact hqc'
        · intro id' hid'
          obtain ⟨qc', hqc', hst⟩ := h.pendProc id' hid'
          have hne : id' ≠ id := fun he => hpnotin (he ▸ hid')
          refine ⟨qc', ?_, hst⟩
          rw [lookupCmd_updateCmd_of_ne _ _ _ _ hne, lookupCmd_updateCmd_of_ne _ _ _ _ hne]
          exact hqc'
        · rw [h.countEq]
          unfold countProcessing
          dsimp only
          have h2 := filterProc_update_exit id (setStatusF .Complete) s.cmds qc h.nodupCmds hl
            (by rw [hProc]; rfl) (by simp)
          have h3 := filterProc_update_info_eq id (setComplF (qc.onCompl.completedOp true).1)
            (updateCmd id (setStatusF .Complete) s.cmds)
            (fun q => rfl)
          rw [h3]
          omega
        · rw [edgesOk_append, edgesOk_append, h.edges, hProc]
          cases hres : qc.onCompl.hasResolve <;> rfl
      · intro id' hc
        unfold statusOf at hc ⊢
        dsimp only
        have hne : id' ≠ id := by
          intro he
          subst he
          rw [hl] at hc
          simp only [Option.map_some'] at hc
          injection hc with hc
          rw [hProc] at hc
          exact QueueStatus.noConfusion hc
        rw [lookupCmd_updateCmd_of_ne _ _ _ _ hne, lookupCmd_updateCmd_of_ne _ _ _ _ hne]
        exact hc
    obtain ⟨h1, hs1⟩ := hinner
    obtain ⟨h2, hs2⟩ := inv_resumeCheck cfg _ h1
    exact ⟨h2, hs1.trans' hs2⟩

/-- Running one scheduled completion continuation. -/
theorem inv_deliver (cfg : ConsumerConfig) (id : Nat) (s : CState) (h : Inv s) :
    Inv (deliver cfg id s) ∧ CompleteStable s (deliver cfg id s) := by
  unfold deliver
  split
  next pr r heq =>
    have hmem : (pr, some r) ∈ s.pend := List.mem_of_find?_eq_some heq
    have hpred := List.find?_some heq
    have hkey : pr = id := by
      simp only [Bool.and_eq_true, beq_iff_eq] at hpred
      exact hpred.1
    subst hkey
    have hkeymem : pr ∈ s.pend.map Prod.fst :=
      List.mem_map_of_mem Prod.fst hmem
    obtain ⟨qc, hl, hProc⟩ := h.pendProc pr hkeymem
    obtain ⟨w, l₁, l₂, hnl₁, hw, hsplit, herase⟩ :=
      @List.exists_of_eraseP _ (fun p => p.1 == pr && p.2.isSome) s.pend (pr, some r)
        hmem hpred
    have hwkey : w.1 = pr := by
      simp only [Bool.and_eq_true, beq_iff_eq] at hw
      exact hw.1
    have hnotrest : pr ∉ (s.pend.eraseP
        (fun p => p.1 == pr && p.2.isSome)).map Prod.fst := by
      rw [herase]
      have hnd := h.nodupPend
      rw [hsplit, List.map_append, List.map_cons, hwkey] at hnd
      have := List.nodup_middle.mp hnd
      rw [List.nodup_cons] at this
      rw [List.map_append]
      exact fun hmem' => this.1 (by simpa using hmem')
    have h₁ : Inv { s with pend := s.pend.eraseP (fun p => p.1 == pr && p.2.isSome) } := by
      refine ⟨h.nodupCmds, h.nodupQueue, ?_, h.queueInit, ?_, h.countEq, h.edges⟩
      · exact ((List.eraseP_sublist s.pend).map Prod.fst).nodup h.nodupPend
      · intro id' hid'
        exact h.pendProc id'
          (((List.eraseP_sublist s.pend).map Prod.fst).subset hid')
    obtain ⟨h2, hs2⟩ := inv_ccE cfg pr r _ h₁ qc hl hProc hnotrest
    exact ⟨h2, hs2⟩
  next =>
    exact ⟨h, fun _ hc => hc⟩

/-- The loop body iterated from the top of an iteration. -/
theorem inv_runLoop (cfg : ConsumerConfig) (fuel : Nat) (s : CState) (h : Inv s) :
    Inv (runLoop cfg fuel s) ∧ CompleteStable s (runLoop cfg fuel s) := by
  induction fuel generalizing s with
  | zero => exact ⟨h, fun _ hc => hc⟩
  | succ n ih =>
    rw [runLoop]
    split
    · exact ⟨h, fun _ hc => hc⟩
    · split
      · exact ⟨⟨h.nodupCmds, h.nodupQueue, h.nodupPend, h.queueInit, h.pendProc,
          h.countEq, h.edges⟩, fun _ hc => hc⟩
      · obtain ⟨h1, hs1⟩ := inv_dispatchHead cfg s h
        obtain ⟨h2, hs2⟩ := ih _ h1
        exact ⟨h2, hs1.trans' hs2⟩

/-- `QueueConsumer.start()`. -/
theorem inv_startC (cfg : ConsumerConfig) (s : CState) (h : Inv s) :
    Inv (startC cfg s) ∧ CompleteStable s (startC cfg s) := by
  have h1 : Inv { s with isRunning := true } :=
    ⟨h.nodupCmds, h.nodupQueue, h.nodupPend, h.queueInit, h.pendProc,
      h.countEq, h.edges⟩
  obtain ⟨h2, hs2⟩ := inv_resumeCheck cfg { s with isRunning := true } h1
  have hs2' : CompleteStable s (resumeCheck cfg { s with isRunning := true }) :=
    fun i hc => hs2 i hc
  have hkey : startC cfg s =
      if s.isRunning then resumeCheck cfg { s with isRunning := true }
      else runLoop cfg ((resumeCheck cfg { s with isRunning := true }).queue.length + 1)
        (resumeCheck cfg { s with isRunning := true }) := rfl
  rw [hkey]
  split
  · exact ⟨h2, hs2'⟩
  · obtain ⟨h3, hs3⟩ := inv_runLoop cfg _ _ h2
    exact ⟨h3, hs2'.trans' hs3⟩

/-- A woken loop's continuation: the unchecked dequeue followed by the
loop re-entering from the top. -/
theorem inv_loopResume (cfg : ConsumerConfig) (s : CState) (h : Inv s) :
    Inv (loopResume cfg s) ∧ CompleteStable s (loopResume cfg s) := by
  have hkey : loopResume cfg s =
      if s.woken = 0 then s
      else runLoop cfg
        ((dispatchHead cfg { s with woken := s.woken - 1 }).queue.length + 1)
        (dispatchHead cfg { s with woken := s.woken - 1 }) := rfl
  rw [hkey]
  split
  · exact ⟨h, fun _ hc => hc⟩
  · have h1 : Inv { s with woken := s.woken - 1 } :=
      ⟨h.nodupCmds, h.nodupQueue, h.nodupPend, h.queueInit, h.pendProc,
        h.countEq, h.edges⟩
    have hs1 : CompleteStable s { s with woken := s.woken - 1 } := fun _ hc => hc
    obtain ⟨h2, hs2⟩ := inv_dispatchHead cfg _ h1
    obtain ⟨h3, hs3⟩ := inv_runLoop cfg _ _ h2
    exact ⟨h3, (hs1.trans' hs2).trans' hs3⟩

/-- Every action preserves the invariant, and never moves a command out
of `Complete`. -/
theorem inv_applyAct (cfg : ConsumerConfig) (a : Act) (s : CState) (h : Inv s) :
    Inv (applyAct cfg a s) ∧ CompleteStable s (applyAct cfg a s) := by
  cases a with
  | start => exact inv_startC cfg s h
  | stop => exact inv_stopC s h
  | enqueueNew id u => exact inv_enqueueNewC cfg id u s h
  | subscribeComplete id => exact inv_subscribeComplete id s h
  | remove id => exact inv_removeC id s h
  | condsChanged => exact inv_resumeCheck cfg s h
  | execSignal id v => exact inv_execSignal id v s h
  | deliver id => exact inv_deliver cfg id s h
  | loopResume => exact inv_loopResume cfg s h

theorem inv_init : Inv CState.init := by
  refine ⟨?_, ?_, ?_, ?_, ?_, ?_, ?_⟩ <;> simp [CState.init, countProcessing, edgesOk]

/-- Every state reachable from a fresh consumer satisfies the invariant. -/
theorem runActs_inv (cfg : ConsumerConfig) (acts : List Act) :
    Inv (runActs cfg acts) := by
  unfold runActs
  induction acts using List.reverseRecOn with
  | nil => exact inv_init
  | append_singleton as a ih =>
    rw [List.foldl_append, List.foldl_cons, List.foldl_nil]
    exact (inv_applyAct cfg a _ ih).1

/-- **C5.** In every state of a `QueueConsumer` reachable under an executor
that signals completion exactly once per dispatch (any sequence of atomic
actions from a fresh consumer), `queueState.processCount` equals the number
of queue commands owned by that consumer whose status is currently
`Processing`, and is never negative. -/
theorem C5_processCount_invariant (cfg : ConsumerConfig) (acts : List Act) :
    (runActs cfg acts).processCount = (countProcessing (runActs cfg acts) : Int) ∧
    0 ≤ (runActs cfg acts).processCount := by
  have h := runActs_inv cfg acts
  refine ⟨h.countEq, ?_⟩
  rw [h.countEq]
  exact Int.natCast_nonneg _

/-- **C6.** For every queue command managed by a reachable `QueueConsumer`,
the status field only ever moves along the edges `Initial→Processing`
(dispatch), `Processing→Complete` (success or retry denial) and
`Processing→Initial` (retry re-admission) — every status write in the
reachable trace is one of these edges — and `Complete` is terminal: a
command whose status is `Complete` still has status `Complete` after any
further action. -/
theorem C6_status_transitions (cfg : ConsumerConfig) (acts : List Act)
    (a : Act) (id : Nat)
    (hc : statusOf (runActs cfg acts) id = some .Complete) :
    edgesOk (runActs cfg acts).log = true ∧
    statusOf (applyAct cfg a (runActs cfg acts)) id = some .Complete := by
  have h := runActs_inv cfg acts
  exact ⟨h.edges, (inv_applyAct cfg a _ h).2 id hc⟩

/-- Witness for C6: in the retry scenario the command ends `Complete`; the
trace's edges check out and a further `start` leaves it `Complete`. -/
theorem C6_status_transitions_witness :
    statusOf (runActs cfgRetry2 actsRetry2) 1 = some .Complete ∧
    (edgesOk (runActs cfgRetry2 actsRetry2).log = true ∧
     statusOf (applyAct cfgRetry2 .start (runActs cfgRetry2 actsRetry2)) 1 =
       some .Complete) :=
  ⟨by decide, C6_status_transitions cfgRetry2 actsRetry2 .start 1 (by decide)⟩

end Wlvyr
